import Mathlib

/-!
Verification of the repository-inspection core of github-genie
(src/github_genie/agent/tools.py) against its natural-language
specification.

The Python tool functions are shallowly embedded as total Lean functions.
Filesystem access, the progress sink and the regular-expression engine are
external collaborators of the core; they are modelled as explicit
parameters (an oracle of type String to PathInfo for the filesystem, a
possibly-raising callback for the progress sink, and a line predicate for a
compiled pattern).  Python exceptions are modelled with the Except monad;
the catch-all handler at the top of each tool is the function that maps an
Except value to a plain result.  Machine strings are Lean Strings (Python
3 strings are sequences of code points, as are Lean string data lists),
and byte-level file contents are lists of naturals below 256.
-/

namespace GithubGenie

/-- Python str.startswith, computed structurally on the character lists. -/
def strStartsWith (s pre : String) : Bool :=
  pre.data.isPrefixOf s.data

/-- Python str.endswith, computed structurally on the character lists. -/
def strEndsWith (s suf : String) : Bool :=
  suf.data.reverse.isPrefixOf s.data.reverse

/-- Occurrence of one character list inside another, at any position. -/
def listInfixOf (needle : List Char) : List Char → Bool
  | [] => needle.isEmpty
  | c :: cs => needle.isPrefixOf (c :: cs) || listInfixOf needle cs

/-- Python substring containment (needle in haystack). -/
def strContains (hay needle : String) : Bool :=
  listInfixOf needle.data hay.data

/-- Python str.strip(): drop leading and trailing whitespace. -/
def pyStrip (s : String) : String :=
  String.mk (((s.data.dropWhile Char.isWhitespace).reverse.dropWhile
    Char.isWhitespace).reverse)

/-- Python str.rstrip(): drop trailing whitespace (this is what removes the
newline kept by readlines, and any trailing blanks). -/
def pyRstrip (s : String) : String :=
  String.mk ((s.data.reverse.dropWhile Char.isWhitespace).reverse)

/-- Helper for pySplitNL: split a character list at every separator. -/
def splitCharsAux (sep : Char) : List Char → List Char → List String
  | [], acc => [String.mk acc.reverse]
  | c :: cs, acc =>
    if c = sep then String.mk acc.reverse :: splitCharsAux sep cs []
    else splitCharsAux sep cs (c :: acc)

/-- Python content.split of a single newline character: always at least one
piece, empty pieces kept. -/
def pySplitNL (s : String) : List String :=
  splitCharsAux '\n' s.data []

/-- Helper for pyReadlines: cut after every newline, keeping it. -/
def readlinesAux : List Char → List Char → List String
  | [], [] => []
  | [], acc => [String.mk acc.reverse]
  | c :: cs, acc =>
    if c = '\n' then
      String.mk (c :: acc).reverse :: readlinesAux cs []
    else readlinesAux cs (c :: acc)

/-- Python f.readlines(): the lines of the decoded text, each keeping its
trailing newline; a final piece without a newline is kept only if nonempty. -/
def pyReadlines (s : String) : List String :=
  readlinesAux s.data []

/-- Python os.path.isabs on a POSIX path. -/
def isAbs (p : String) : Bool :=
  strStartsWith p "/"

/-- Python os.path.join with two arguments on POSIX paths. -/
def joinPath (root p : String) : String :=
  if isAbs p then p
  else if root = "" then p
  else if strEndsWith root "/" then root ++ p
  else root ++ "/" ++ p

/-- Python os.path.basename on a POSIX path. -/
def baseName (p : String) : String :=
  (pySplitNL ((String.mk (p.data.map (fun c => if c = '/' then '\n' else c)))) ).getLastD ""

/-- Latin-1 (ISO-8859-1) decoding: every byte value below 256 is exactly the
code point with that value, so this decoder is total. -/
def latin1Decode (bytes : List Nat) : String :=
  String.mk (bytes.map (fun b => Char.ofNat b))

/-- The first decoder of the ordered encoding list that succeeds, as in the
for/except UnicodeDecodeError/continue loop of the source. -/
def decodeFirst (decoders : List (List Nat → Option String)) (bytes : List Nat) :
    Option String :=
  match decoders with
  | [] => none
  | d :: rest =>
    match d bytes with
    | some s => some s
    | none => decodeFirst rest bytes

/-- The encoding list of read_file_content: utf-8, then latin-1, then
cp1252.  The utf-8 and cp1252 codecs are external and partial; latin-1 is
total and modelled exactly. -/
def readDecoders (utf8D cp1252D : List Nat → Option String) :
    List (List Nat → Option String) :=
  [utf8D, fun b => some (latin1Decode b), cp1252D]

/-- The encoding list of search_in_files: utf-8, then latin-1. -/
def searchDecoders (utf8D : List Nat → Option String) :
    List (List Nat → Option String) :=
  [utf8D, fun b => some (latin1Decode b)]

/-- An awaited call whose only effect is an exception channel: if the
awaited progress call raises, the exception is in flight and the rest of
the body never runs; otherwise the body's value is the result. -/
def pyAwait {α : Type} (x : Except String Unit) (k : Except String α) :
    Except String α :=
  match x with
  | Except.error e => Except.error e
  | Except.ok _ => k

/-- Session state carried in GenieDependencies: the current working root.
Only clone_repository assigns this field. -/
structure Deps where
  currentRepoPath : Option String
deriving DecidableEq, Repr

/-- The assignment performed by clone_repository on success (tools.py line
90): the only mutation of the session state anywhere in the tool set. -/
def setWorkingRoot (_d : Deps) (p : String) : Deps :=
  ⟨some p⟩

/-- Outcome of resolving a directory-path argument. -/
inductive ResolveResult
  | ok (path : String)
  | noRoot
deriving DecidableEq, Repr

/-- Directory-path resolution shared by list_directory_contents (lines
196-212) and search_in_files (lines 434-449): a missing, empty or "."
argument means the working root itself; an absolute path passes through;
anything else is joined to the working root, and needs one. -/
def resolveDir (root : Option String) (input : Option String) : ResolveResult :=
  match input with
  | none =>
    match root with
    | some r => ResolveResult.ok r
    | none => ResolveResult.noRoot
  | some s =>
    if s = "" || (pyStrip s = "" || pyStrip s = ".") then
      match root with
      | some r => ResolveResult.ok r
      | none => ResolveResult.noRoot
    else
      let s' := pyStrip s
      if isAbs s' then ResolveResult.ok s'
      else
        match root with
        | some r => ResolveResult.ok (joinPath r s')
        | none => ResolveResult.noRoot

/-- Outcome of resolving the file-path argument of read_file_content. -/
inductive FileResolve
  | ok (path : String)
  | emptyPath
  | noRoot
deriving DecidableEq, Repr

/-- File-path resolution of read_file_content (lines 305-307 and 317-327):
an empty (or all-whitespace) argument is an invalid-argument error; there is
no "." special case, so "." is joined to the root like any relative path. -/
def resolveFile (root : Option String) (input : String) : FileResolve :=
  if pyStrip input = "" then FileResolve.emptyPath
  else
    let p := pyStrip input
    if isAbs p then FileResolve.ok p
    else
      match root with
      | some r => FileResolve.ok (joinPath r p)
      | none => FileResolve.noRoot

/-- Python format spec "4d": right-align the decimal digits in width 4. -/
def fmt4 (n : Nat) : String :=
  let s := toString n
  if s.length < 4 then String.mk (List.replicate (4 - s.length) ' ') ++ s
  else s

/-- One numbered output line of read_file_content (line 385): the 1-indexed
line number in width 4, a colon, and the line with trailing whitespace
(including the newline kept by readlines) stripped. -/
def numberedLine (i : Nat) (l : String) : String :=
  fmt4 i ++ ": " ++ pyRstrip l

/-- The enumerate(selected_lines, start=line_start) loop of lines 383-385. -/
def numberLines (start : Nat) : List String → List String
  | [] => []
  | l :: rest => numberedLine start l :: numberLines (start + 1) rest

/-- Result of read_file_content, one constructor per distinct return site. -/
inductive ReadResult
  | errBadPath
  | errBadStart
  | errBadEnd
  | errNoRoot
  | errNotFound (p : String)
  | errNotFile (p : String)
  | errTooLarge (p : String)
  | errUndecodable (p : String)
  | errStartExceeds (lineStart totalLines : Nat)
  | ok (numbered : List String) (lineStart actualEnd totalLines : Nat)
      (truncNote : Bool)
  | errCaught (msg : String)
deriving DecidableEq, Repr

/-- The slicing-and-numbering core of read_file_content (lines 364-395),
applied to the readlines output.  lineEnd none is the unbounded sentinel.
Nat subtraction saturates at zero exactly like the guarded Python
arithmetic (lineStart is at least 1 here, checked by the caller). -/
def readWindow (lines : List String) (lineStart : Nat) (lineEnd : Option Nat) :
    ReadResult :=
  let totalLines := lines.length
  let startIdx := lineStart - 1
  let endIdx0 :=
    match lineEnd with
    | some e => e - 1
    | none => totalLines - 1
  if totalLines ≤ startIdx then
    ReadResult.errStartExceeds lineStart totalLines
  else
    let endIdx := min endIdx0 (totalLines - 1)
    let selected := (lines.drop startIdx).take (endIdx + 1 - startIdx)
    let numbered := numberLines lineStart selected
    let actualEnd := startIdx + selected.length
    ReadResult.ok numbered lineStart actualEnd totalLines
      (lineEnd.isSome && decide (actualEnd < totalLines))

/-- Python "\n".join(parts). -/
def joinWith (sep : String) : List String → String
  | [] => ""
  | [x] => x
  | x :: y :: rest => x ++ sep ++ joinWith sep (y :: rest)

/-- Round size*10/den to the nearest integer, ties to even: because den is a
power of two, size/den is exact in binary floating point, and Python's
"%.1f" formatting of that exact value rounds the true rational this way. -/
def round1 (size den : Nat) : Nat :=
  let n := size * 10
  let q := n / den
  let r := n % den
  if den < 2 * r then q + 1
  else if 2 * r < den then q
  else if q % 2 = 1 then q + 1 else q

/-- The fractional rendering "d.t" used by the size formatter. -/
def fmt1dp (tenths : Nat) : String :=
  toString (tenths / 10) ++ "." ++ toString (tenths % 10)

/-- Size rendering of lines 260-268: MB above one binary megabyte, KB above
one binary kilobyte, bytes otherwise (both comparisons strict). -/
def fmtSize (size : Nat) : String :=
  if 1024 * 1024 < size then fmt1dp (round1 size (1024 * 1024)) ++ "MB"
  else if 1024 < size then fmt1dp (round1 size 1024) ++ "KB"
  else toString size ++ "B"

/-- One directory entry as the lister sees it: a file with its size (none
when os.path.getsize raised OSError) or a subdirectory with its direct file
count (none when os.listdir raised PermissionError). -/
inductive FsEntry
  | file (name : String) (size : Option Nat)
  | dir (name : String) (count : Option Nat)
deriving DecidableEq, Repr

/-- The name of a directory entry. -/
def FsEntry.name : FsEntry → String
  | FsEntry.file n _ => n
  | FsEntry.dir n _ => n

/-- Strict lexicographic comparison of character lists by code point, the
order Python uses to compare strings; written as an executable boolean. -/
def charListLt : List Char → List Char → Bool
  | [], [] => false
  | [], _ :: _ => true
  | _ :: _, [] => false
  | a :: as, b :: bs =>
    if a < b then true
    else if b < a then false
    else charListLt as bs

/-- Python string less-or-equal: not strictly greater. -/
def strLeB (a b : String) : Bool :=
  !(charListLt b.data a.data)

/-- Name order on entries; sorted(os.listdir(...)) sorts by this order. -/
def entryLE (a b : FsEntry) : Prop :=
  strLeB a.name b.name = true

instance : DecidableRel entryLE :=
  fun a b => inferInstanceAs (Decidable (strLeB a.name b.name = true))

/-- The skip of line 244: a hidden name is dropped unless a (truthy) filter
pattern was supplied and matches the name.  pat is the compiled pattern,
none when filter_pattern was None or empty. -/
def skipHidden (pat : Option (String → Bool)) (name : String) : Bool :=
  strStartsWith name "." &&
    (match pat with
     | none => true
     | some f => !(f name))

/-- The skip of line 247: with a compiled pattern, non-matching names drop. -/
def skipUnmatched (pat : Option (String → Bool)) (name : String) : Bool :=
  match pat with
  | none => false
  | some f => !(f name)

/-- An entry survives the listing loop iff neither skip fires. -/
def keepEntry (pat : Option (String → Bool)) (name : String) : Bool :=
  !(skipHidden pat name) && !(skipUnmatched pat name)

/-- The per-entry rendering of lines 252-270. -/
def formatEntry : FsEntry → String
  | FsEntry.dir n (some c) => "📁 " ++ n ++ "/ (" ++ toString c ++ " files)"
  | FsEntry.dir n none => "📁 " ++ n ++ "/ (permission denied)"
  | FsEntry.file n (some sz) => "📄 " ++ n ++ " (" ++ fmtSize sz ++ ")"
  | FsEntry.file n none => "📄 " ++ n

/-- What the filesystem oracle reports about one absolute path. -/
inductive PathInfo
  | missing
  | file (bytes : List Nat)
  | dir (entries : List FsEntry)

/-- Result of list_directory_contents, one constructor per return site. -/
inductive ListResult
  | errNoRoot
  | errNotFound (p : String)
  | errNotDir (p : String)
  | errBadPattern (fp : String)
  | errEmpty (p : String) (fp : Option String)
  | ok (entries : List FsEntry) (text : String)
  | errCaught (msg : String)
deriving DecidableEq, Repr

/-- Filter-pattern validation of lines 230-240, with Python truthiness:
None and the empty string are falsy and disable filtering; on a truthy
pattern a failed compile (re.error) is reported as the invalid-regex
error. -/
def compilePattern (compile : String → Option (String → Bool)) :
    Option String → Except ListResult (Option (String → Bool))
  | none => Except.ok none
  | some fp =>
    if fp = "" then Except.ok none
    else
      match compile (pyStrip fp) with
      | none => Except.error (ListResult.errBadPattern fp)
      | some f => Except.ok (some f)

/-- Body of list_directory_contents (lines 196-280), everything inside the
try block, in source order: resolve, report progress, check the directory,
validate the filter pattern, then walk the sorted names.  The sink and the
filesystem oracle may raise (Except.error models an exception in flight);
compile is the regular-expression compiler, none meaning re.error. -/
def listBody (sink : String → Except String Unit)
    (fs : String → Except String PathInfo)
    (compile : String → Option (String → Bool))
    (deps : Deps) (directoryPath : Option String) (filterPattern : Option String) :
    Except String ListResult :=
  match resolveDir deps.currentRepoPath directoryPath with
  | ResolveResult.noRoot => Except.ok ListResult.errNoRoot
  | ResolveResult.ok targetDir =>
    let dirName := if baseName targetDir = "" then targetDir else baseName targetDir
    pyAwait (sink ("🔧 Exploring directory: " ++ dirName)) <|
    match fs targetDir with
    | Except.error e => Except.error e
    | Except.ok PathInfo.missing => Except.ok (ListResult.errNotFound targetDir)
    | Except.ok (PathInfo.file _) => Except.ok (ListResult.errNotDir targetDir)
    | Except.ok (PathInfo.dir entries) =>
      match compilePattern compile filterPattern with
      | Except.error r => Except.ok r
      | Except.ok pat =>
        let kept := (List.insertionSort entryLE entries).filter
          (fun e => keepEntry pat e.name)
        if kept.isEmpty then
          Except.ok (ListResult.errEmpty targetDir filterPattern)
        else
          let text := "Contents of " ++ targetDir ++ ":" ++
            (match filterPattern with
             | some fp => if fp = "" then "" else " (filtered by '" ++ fp ++ "')"
             | none => "") ++
            "\n" ++ joinWith "\n" (kept.map formatEntry)
          Except.ok (ListResult.ok kept text)

/-- list_directory_contents proper: the catch-all except of lines 282-284
turns any exception raised inside the body (the progress sink included,
since its call sits inside the try) into an error string result. -/
def listOp (sink : String → Except String Unit)
    (fs : String → Except String PathInfo)
    (compile : String → Option (String → Bool))
    (deps : Deps) (directoryPath : Option String) (filterPattern : Option String) :
    ListResult :=
  match listBody sink fs compile deps directoryPath filterPattern with
  | Except.ok r => r
  | Except.error e => ListResult.errCaught e

/-- What escapes a call to list_directory_contents: nothing but the result,
because the try block spans the whole body. -/
def listOpFull (sink : String → Except String Unit)
    (fs : String → Except String PathInfo)
    (compile : String → Option (String → Bool))
    (deps : Deps) (directoryPath : Option String) (filterPattern : Option String) :
    Except String ListResult :=
  Except.ok (listOp sink fs compile deps directoryPath filterPattern)

/-- list_directory_contents as a session-state transformer: the function
reads ctx.deps but never assigns to it. -/
def listOpS (sink : String → Except String Unit)
    (fs : String → Except String PathInfo)
    (compile : String → Option (String → Bool))
    (deps : Deps) (directoryPath : Option String) (filterPattern : Option String) :
    ListResult × Deps :=
  (listOp sink fs compile deps directoryPath filterPattern, deps)

/-- Body of read_file_content (lines 303-395), inside the try block, in
source order: validate the three arguments, resolve the path, report
progress, check the file, enforce the 10 MiB cap, decode with the encoding
fallback list, and slice. -/
def readBody (sink : String → Except String Unit)
    (fs : String → Except String PathInfo)
    (utf8D cp1252D : List Nat → Option String)
    (deps : Deps) (filePath : String) (lineStart : Nat) (lineEnd : Option Nat) :
    Except String ReadResult :=
  if pyStrip filePath = "" then Except.ok ReadResult.errBadPath
  else if lineStart < 1 then Except.ok ReadResult.errBadStart
  else if (match lineEnd with
           | some e => decide (e < lineStart)
           | none => false) then
    Except.ok ReadResult.errBadEnd
  else
    match resolveFile deps.currentRepoPath filePath with
    | FileResolve.emptyPath => Except.ok ReadResult.errBadPath
    | FileResolve.noRoot => Except.ok ReadResult.errNoRoot
    | FileResolve.ok targetFile =>
      let fileName := if baseName targetFile = "" then targetFile else baseName targetFile
      pyAwait (sink ("🔧 Reading file: " ++ fileName)) <|
      match fs targetFile with
      | Except.error e => Except.error e
      | Except.ok PathInfo.missing => Except.ok (ReadResult.errNotFound targetFile)
      | Except.ok (PathInfo.dir _) => Except.ok (ReadResult.errNotFile targetFile)
      | Except.ok (PathInfo.file bytes) =>
        if 10 * 1024 * 1024 < bytes.length then
          Except.ok (ReadResult.errTooLarge targetFile)
        else
          match decodeFirst (readDecoders utf8D cp1252D) bytes with
          | none => Except.ok (ReadResult.errUndecodable targetFile)
          | some content => Except.ok (readWindow (pyReadlines content) lineStart lineEnd)

/-- read_file_content proper: the catch-all except of lines 397-399. -/
def readOp (sink : String → Except String Unit)
    (fs : String → Except String PathInfo)
    (utf8D cp1252D : List Nat → Option String)
    (deps : Deps) (filePath : String) (lineStart : Nat) (lineEnd : Option Nat) :
    ReadResult :=
  match readBody sink fs utf8D cp1252D deps filePath lineStart lineEnd with
  | Except.ok r => r
  | Except.error e => ReadResult.errCaught e

/-- What escapes a call to read_file_content: only the result. -/
def readOpFull (sink : String → Except String Unit)
    (fs : String → Except String PathInfo)
    (utf8D cp1252D : List Nat → Option String)
    (deps : Deps) (filePath : String) (lineStart : Nat) (lineEnd : Option Nat) :
    Except String ReadResult :=
  Except.ok (readOp sink fs utf8D cp1252D deps filePath lineStart lineEnd)

/-- One search match as stored in the matches list (lines 544-549). -/
structure MatchRec where
  file : String
  line : Nat
  context : String
  tokens : Nat
deriving DecidableEq, Repr

/-- Rough token estimation of lines 473-475: length in code points, integer
divided by four. -/
def estimateTokens (text : String) : Nat :=
  text.length / 4

/-- Context extraction and marking for a match at 1-indexed lineNum (lines
522-536): the window is lines[max(0, lineNum-2) : min(len, lineNum+1)], the
matching line gets the ">>> " mark, and the token cost is estimated from
the rendered block.  Nat subtraction saturates exactly like max(0, _). -/
def mkMatch (relpath : String) (lines : List String) (lineNum : Nat) : MatchRec :=
  let start := lineNum - 2
  let stop := min lines.length (lineNum + 1)
  let ctx := (lines.drop start).take (stop - start)
  let idx := lineNum - 1 - start
  let marked := ctx.set idx (">>> " ++ ctx.getD idx "")
  let context := joinWith "\n" marked
  let text := "📄 " ++ relpath ++ ":" ++ toString lineNum ++ "\n" ++ context ++ "\n"
  { file := relpath, line := lineNum, context := context,
    tokens := estimateTokens text }

/-- Python enumerate with a start index. -/
def enumFrom {α : Type} (start : Nat) : List α → List (Nat × α)
  | [] => []
  | x :: xs => (start, x) :: enumFrom (start + 1) xs

/-- The inner match loop of lines 518-554 for one file, budget-aware.
Arguments after the colon: the remaining enumerated lines, this file's
accumulated matches, the global token estimate, and the global match count.
Returns those three updated plus the truncation verdict of this scan.
fwm is the number of files with matches so far, frozen during the scan. -/
def scanLines (p : String → Bool) (relpath : String) (lines : List String)
    (maxFiles maxTokens fwm : Nat) :
    List (Nat × String) → List MatchRec → Nat → Nat →
    List MatchRec × Nat × Nat × Bool
  | [], fm, est, tf => (fm, est, tf, false)
  | (ln, l) :: rest, fm, est, tf =>
    if p l then
      let m := mkMatch relpath lines ln
      if maxTokens < est + m.tokens ∨ maxFiles ≤ fwm then
        (fm, est, tf + 1, true)
      else
        let fm' := fm ++ [m]
        if 3 ≤ fm'.length then (fm', est + m.tokens, tf + 1, false)
        else scanLines p relpath lines maxFiles maxTokens fwm rest fm'
          (est + m.tokens) (tf + 1)
    else scanLines p relpath lines maxFiles maxTokens fwm rest fm est tf

/-- Reference scan: the same loop with the two global budget checks
removed, keeping the fixed per-file cap of three matches. -/
def scanFree (p : String → Bool) (relpath : String) (lines : List String) :
    List (Nat × String) → List MatchRec → Nat → List MatchRec × Nat
  | [], fm, tf => (fm, tf)
  | (ln, l) :: rest, fm, tf =>
    if p l then
      let m := mkMatch relpath lines ln
      let fm' := fm ++ [m]
      if 3 ≤ fm'.length then (fm', tf + 1)
      else scanFree p relpath lines rest fm' (tf + 1)
    else scanFree p relpath lines rest fm tf

/-- One candidate file of the directory walk: its basename (tested by the
hidden-name and extension filters), its path relative to the search root
(recorded in match records), and its raw bytes. -/
structure FileItem where
  name : String
  relpath : String
  bytes : List Nat
deriving DecidableEq, Repr

/-- The extension filter of lines 489-491, with Python truthiness: an empty
extension list is falsy and disables the filter. -/
def extOk (exts : Option (List String)) (name : String) : Bool :=
  match exts with
  | none => true
  | some es => if es.isEmpty then true else es.any (fun e => strEndsWith name e)

/-- A file survives the pre-decode filters: not hidden, extension accepted,
at most one binary megabyte. -/
def fileCandidate (exts : Option (List String)) (f : FileItem) : Bool :=
  !(strStartsWith f.name ".") && extOk exts f.name &&
    !(1024 * 1024 < f.bytes.length)

/-- The mutable locals of search_in_files (lines 466-471). -/
structure SState where
  matchList : List MatchRec := []
  filesSearched : Nat := 0
  totalFound : Nat := 0
  estTokens : Nat := 0
  filesWithMatches : Nat := 0
  truncated : Bool := false
deriving DecidableEq, Repr

/-- Total estimated size of a list of match records. -/
def sumT (l : List MatchRec) : Nat :=
  (l.map (fun m => m.tokens)).sum

/-- The file loop of lines 478-573 over the flattened walk order (directory
pruning happens before this sequence is produced): skip hidden names,
filtered extensions and oversized files, decode with utf-8 then latin-1,
scan, then fold this file's matches into the global state; the walk halts
as soon as the truncation flag is raised. -/
def searchLoop (p : String → Bool) (utf8D : List Nat → Option String)
    (exts : Option (List String)) (maxFiles maxTokens : Nat) :
    List FileItem → SState → SState
  | [], st => st
  | f :: rest, st =>
    if strStartsWith f.name "." then
      searchLoop p utf8D exts maxFiles maxTokens rest st
    else if !(extOk exts f.name) then
      searchLoop p utf8D exts maxFiles maxTokens rest st
    else if 1024 * 1024 < f.bytes.length then
      searchLoop p utf8D exts maxFiles maxTokens rest st
    else
      match decodeFirst (searchDecoders utf8D) f.bytes with
      | none => searchLoop p utf8D exts maxFiles maxTokens rest st
      | some content =>
        let lines := pySplitNL content
        let scan := scanLines p f.relpath lines maxFiles maxTokens
          st.filesWithMatches (enumFrom 1 lines) [] st.estTokens st.totalFound
        let fm := scan.1
        let est' := scan.2.1
        let tf' := scan.2.2.1
        let trunc := scan.2.2.2
        let st' : SState :=
          { st with filesSearched := st.filesSearched + 1, totalFound := tf',
                    estTokens := est' }
        if fm.isEmpty then
          if trunc then { st' with truncated := true }
          else searchLoop p utf8D exts maxFiles maxTokens rest st'
        else
          let st'' : SState :=
            { st' with matchList := st'.matchList ++ fm,
                       filesWithMatches := st'.filesWithMatches + 1 }
          if maxFiles ≤ st''.filesWithMatches then
            { st'' with truncated := true }
          else if trunc then { st'' with truncated := true }
          else searchLoop p utf8D exts maxFiles maxTokens rest st''

/-- Reference file loop: same filters and decoding, no global budgets, so
it never truncates; estTokens tracks the total cost of kept matches. -/
def searchFreeLoop (p : String → Bool) (utf8D : List Nat → Option String)
    (exts : Option (List String)) :
    List FileItem → SState → SState
  | [], st => st
  | f :: rest, st =>
    if strStartsWith f.name "." then
      searchFreeLoop p utf8D exts rest st
    else if !(extOk exts f.name) then
      searchFreeLoop p utf8D exts rest st
    else if 1024 * 1024 < f.bytes.length then
      searchFreeLoop p utf8D exts rest st
    else
      match decodeFirst (searchDecoders utf8D) f.bytes with
      | none => searchFreeLoop p utf8D exts rest st
      | some content =>
        let lines := pySplitNL content
        let scan := scanFree p f.relpath lines (enumFrom 1 lines) [] st.totalFound
        let fm := scan.1
        let tf' := scan.2
        let st' : SState :=
          { st with filesSearched := st.filesSearched + 1, totalFound := tf',
                    estTokens := st.estTokens + sumT fm }
        if fm.isEmpty then searchFreeLoop p utf8D exts rest st'
        else
          searchFreeLoop p utf8D exts rest
            { st' with matchList := st'.matchList ++ fm,
                       filesWithMatches := st'.filesWithMatches + 1 }

/-- search_in_files from the start of the walk, with fresh counters. -/
def searchInFiles (p : String → Bool) (utf8D : List Nat → Option String)
    (exts : Option (List String)) (maxFiles maxTokens : Nat)
    (files : List FileItem) : SState :=
  searchLoop p utf8D exts maxFiles maxTokens files {}

/-- The reference search from fresh counters. -/
def searchFreeFiles (p : String → Bool) (utf8D : List Nat → Option String)
    (exts : Option (List String)) (files : List FileItem) : SState :=
  searchFreeLoop p utf8D exts files {}

/-- The stable textual truncation marker of line 595. -/
def truncationNotice : String :=
  "⚠️  Results truncated due to size limits."

/-- The narrowing suggestion of line 596. -/
def truncationHint : String :=
  "💡 Use more specific search patterns to see additional matches."

/-- The no-match report of line 576. -/
def noMatchesMsg (pat : String) (filesSearched : Nat) : String :=
  "No matches found for pattern '" ++ pat ++ "' in " ++
    toString filesSearched ++ " files searched."

/-- Result assembly of lines 575-598: either the bare no-match report, or a
summary header, the match blocks, and, when truncated, the two notice
lines; the function output is these parts joined by newlines. -/
def resultParts (pat : String) (st : SState) : List String :=
  if st.matchList.isEmpty then
    [noMatchesMsg pat st.filesSearched]
  else
    let summary :=
      "Found " ++ toString st.totalFound ++ " matches for pattern '" ++ pat ++
        "' in " ++ toString st.filesSearched ++ " files" ++
        (if st.truncated then
          " (showing first " ++ toString st.matchList.length ++ " matches from " ++
            toString st.filesWithMatches ++ " files)"
         else "")
    (summary ++ ":\n") ::
      (st.matchList.flatMap (fun m =>
        ["📄 " ++ m.file ++ ":" ++ toString m.line, m.context, ""])) ++
      (if st.truncated then [truncationNotice, truncationHint] else [])

/-- Result of search_in_files, one constructor per return site; ok carries
the final counters next to the rendered text. -/
inductive SearchResult
  | errEmptyPattern
  | errNoRoot
  | errNotFound (p : String)
  | errNotDir (p : String)
  | errBadPattern (pat : String)
  | ok (st : SState) (text : String)
  | errCaught (msg : String)
deriving DecidableEq, Repr

/-- Body of search_in_files inside the try block (lines 426-598), in source
order: validate the pattern, resolve the directory, check it, compile the
regex (none models re.error), then walk and assemble.  walkFiles is the
pruned walk of the resolved directory as the filesystem yields it. -/
def searchBody (fs : String → Except String PathInfo)
    (compile : String → Option (String → Bool))
    (walkFiles : String → List FileItem)
    (utf8D : List Nat → Option String)
    (deps : Deps) (searchPattern : String) (directoryPath : Option String)
    (fileExtensions : Option (List String)) (maxFiles maxTokens : Nat) :
    Except String SearchResult :=
  if pyStrip searchPattern = "" then Except.ok SearchResult.errEmptyPattern
  else
    let pat := pyStrip searchPattern
    match resolveDir deps.currentRepoPath directoryPath with
    | ResolveResult.noRoot => Except.ok SearchResult.errNoRoot
    | ResolveResult.ok searchDir =>
      match fs searchDir with
      | Except.error e => Except.error e
      | Except.ok PathInfo.missing => Except.ok (SearchResult.errNotFound searchDir)
      | Except.ok (PathInfo.file _) => Except.ok (SearchResult.errNotDir searchDir)
      | Except.ok (PathInfo.dir _) =>
        match compile pat with
        | none => Except.ok (SearchResult.errBadPattern pat)
        | some p =>
          let st := searchInFiles p utf8D fileExtensions maxFiles maxTokens
            (walkFiles searchDir)
          Except.ok (SearchResult.ok st (joinWith "\n" (resultParts pat st)))

/-- search_in_files with its catch-all except (lines 600-602). -/
def searchOp (fs : String → Except String PathInfo)
    (compile : String → Option (String → Bool))
    (walkFiles : String → List FileItem)
    (utf8D : List Nat → Option String)
    (deps : Deps) (searchPattern : String) (directoryPath : Option String)
    (fileExtensions : Option (List String)) (maxFiles maxTokens : Nat) :
    SearchResult :=
  match searchBody fs compile walkFiles utf8D deps searchPattern directoryPath
      fileExtensions maxFiles maxTokens with
  | Except.ok r => r
  | Except.error e => SearchResult.errCaught e

/-- What escapes a call to search_in_files: the progress report of lines
422-424 runs before the try block, so an exception it raises propagates to
the caller uncaught; only then does the protected body run. -/
def searchOpFull (sink : String → Except String Unit)
    (fs : String → Except String PathInfo)
    (compile : String → Option (String → Bool))
    (walkFiles : String → List FileItem)
    (utf8D : List Nat → Option String)
    (deps : Deps) (searchPattern : String) (directoryPath : Option String)
    (fileExtensions : Option (List String)) (maxFiles maxTokens : Nat) :
    Except String SearchResult :=
  pyAwait (sink ("🔧 Searching for pattern: " ++ searchPattern))
    (Except.ok (searchOp fs compile walkFiles utf8D deps searchPattern directoryPath
      fileExtensions maxFiles maxTokens))

/-- search_in_files as a session-state transformer: it reads ctx.deps but
never assigns to it. -/
def searchOpS (fs : String → Except String PathInfo)
    (compile : String → Option (String → Bool))
    (walkFiles : String → List FileItem)
    (utf8D : List Nat → Option String)
    (deps : Deps) (searchPattern : String) (directoryPath : Option String)
    (fileExtensions : Option (List String)) (maxFiles maxTokens : Nat) :
    SearchResult × Deps :=
  (searchOp fs compile walkFiles utf8D deps searchPattern directoryPath
    fileExtensions maxFiles maxTokens, deps)

/-! Concrete fixtures used by counterexamples and witnesses. -/

/-- Byte rendering of an ASCII string, for concrete filesystem fixtures. -/
def asciiBytes (s : String) : List Nat :=
  s.data.map Char.toNat

/-- The five-line scenario file of the spec: "foo" occurs on line 3 only. -/
def sampleFooFile : FileItem :=
  { name := "a.txt", relpath := "a.txt", bytes := asciiBytes "l1\nl2\nfoo\nl4\nl5" }

/-- A second matching file, for budget fixtures. -/
def otherFooFile : FileItem :=
  { name := "b.txt", relpath := "b.txt", bytes := asciiBytes "foo" }

/-- Semantics of the compiled pattern "foo" on fixture lines: a line matches
iff it contains the substring "foo" (re.search with IGNORECASE is substring
containment for this lower-case literal pattern on ASCII input). -/
def fooPred : String → Bool :=
  fun l => strContains l "foo"

/-- A utf-8 decoder stub that always fails, forcing the latin-1 fallback;
the claims proved below hold for every utf-8 decoder, this stub only makes
fixtures evaluate through the total latin-1 branch. -/
def utf8None : List Nat → Option String :=
  fun _ => none

/-- A progress sink that never raises. -/
def okSink : String → Except String Unit :=
  fun _ => Except.ok ()

/-- A progress sink whose notify call raises. -/
def failSink (m : String) : String → Except String Unit :=
  fun _ => Except.error m

/-! Theorems for the claims. -/

/-- C5, counterexample: the claim says the empty input path resolves to the
working root itself for every operation, but read_file_content rejects the
empty string as an invalid argument before any resolution happens, so the
empty path does not resolve to the root there. -/
theorem resolve_empty_read_cex :
    resolveFile (some "/repo") "" = FileResolve.emptyPath
  ∧ FileResolve.emptyPath ≠ FileResolve.ok "/repo" := by
  decide

/-- C5, amended: for list_directory_contents and search_in_files the rule
holds exactly: a missing, empty or "." argument resolves to the root,
an absolute path is returned unchanged, any other input is joined to the
root, and a relative input with no root is a no-working-root error.  For
read_file_content the absolute, join and no-root rules are the same, but an
empty path is an invalid-argument error and "." is joined to the root like
any relative path rather than resolving to the root itself. -/
theorem resolve_rules (r s : String) :
    (resolveDir (some r) none = ResolveResult.ok r)
  ∧ (resolveDir (some r) (some "") = ResolveResult.ok r)
  ∧ (resolveDir (some r) (some ".") = ResolveResult.ok r)
  ∧ (pyStrip s = s → s ≠ "" → s ≠ "." → isAbs s = true →
      resolveDir (some r) (some s) = ResolveResult.ok s
      ∧ resolveDir none (some s) = ResolveResult.ok s
      ∧ resolveFile (some r) s = FileResolve.ok s
      ∧ resolveFile none s = FileResolve.ok s)
  ∧ (pyStrip s = s → s ≠ "" → s ≠ "." → isAbs s = false →
      resolveDir (some r) (some s) = ResolveResult.ok (joinPath r s)
      ∧ resolveDir none (some s) = ResolveResult.noRoot
      ∧ resolveFile (some r) s = FileResolve.ok (joinPath r s)
      ∧ resolveFile none s = FileResolve.noRoot)
  ∧ (resolveFile (some r) "" = FileResolve.emptyPath)
  ∧ (resolveFile (some r) "." = FileResolve.ok (joinPath r "."))
  ∧ (resolveDir none none = ResolveResult.noRoot)
  ∧ (resolveDir none (some "") = ResolveResult.noRoot) := by
  refine ⟨rfl, rfl, rfl, ?_, ?_, rfl, rfl, rfl, rfl⟩
  · intro hs h0 hd habs
    have hcond : (s = "" || (pyStrip s = "" || pyStrip s = ".")) = false := by
      simp [hs, h0, hd]
    refine ⟨?_, ?_, ?_, ?_⟩ <;>
      simp [resolveDir, resolveFile, hcond, hs, h0, hd, habs]
  · intro hs h0 hd habs
    have hcond : (s = "" || (pyStrip s = "" || pyStrip s = ".")) = false := by
      simp [hs, h0, hd]
    refine ⟨?_, ?_, ?_, ?_⟩ <;>
      simp [resolveDir, resolveFile, hcond, hs, h0, hd, habs]

/-- C5, witness: the amended rules evaluated at the spec's own scenario,
root "/repo" with inputs "", ".", "/abs/path" and "sub/dir". -/
theorem resolve_rules_witness :
    resolveDir (some "/repo") (some "") = ResolveResult.ok "/repo"
  ∧ resolveDir (some "/repo") (some "/abs/path") = ResolveResult.ok "/abs/path"
  ∧ resolveDir (some "/repo") (some "sub/dir") = ResolveResult.ok "/repo/sub/dir"
  ∧ resolveFile none "sub/dir" = FileResolve.noRoot := by
  refine ⟨(resolve_rules "/repo" "").2.1, ?_, ?_, ?_⟩
  · exact ((resolve_rules "/repo" "/abs/path").2.2.2.1
      (by decide) (by decide) (by decide) (by decide)).1
  · have h := ((resolve_rules "/repo" "sub/dir").2.2.2.2.1
      (by decide) (by decide) (by decide) (by decide)).1
    simpa using h
  · exact ((resolve_rules "/repo" "sub/dir").2.2.2.2.1
      (by decide) (by decide) (by decide) (by decide)).2.2.2

/-- C9: list and search are pure in the session state: they read the
current working root but never assign it, so two calls with identical
inputs on the same filesystem return identical results and leave the
state exactly as it was. -/
theorem list_search_idempotent (sink : String → Except String Unit)
    (fs : String → Except String PathInfo)
    (compile : String → Option (String → Bool))
    (walkFiles : String → List FileItem)
    (utf8D : List Nat → Option String)
    (deps : Deps) (dp : Option String) (fp : Option String)
    (sp : String) (exts : Option (List String)) (mF mT : Nat) :
    ((listOpS sink fs compile deps dp fp).1 =
        (listOpS sink fs compile (listOpS sink fs compile deps dp fp).2 dp fp).1
      ∧ (listOpS sink fs compile deps dp fp).2 = deps)
  ∧ ((searchOpS fs compile walkFiles utf8D deps sp dp exts mF mT).1 =
        (searchOpS fs compile walkFiles utf8D
          (searchOpS fs compile walkFiles utf8D deps sp dp exts mF mT).2
          sp dp exts mF mT).1
      ∧ (searchOpS fs compile walkFiles utf8D deps sp dp exts mF mT).2 = deps) :=
  ⟨⟨rfl, rfl⟩, ⟨rfl, rfl⟩⟩

/-- C7, counterexample: the claim says no operation ever raises an uncaught
exception, but the progress report of search_in_files runs before its try
block, so a raising progress sink propagates out of the operation. -/
theorem search_sink_exception_cex :
    searchOpFull (failSink "progress sink failure")
      (fun _ => Except.ok (PathInfo.dir [])) (fun _ => some (fun _ => true))
      (fun _ => []) utf8None ⟨some "/repo"⟩ "foo" none none 15 100000 =
      Except.error "progress sink failure" := by
  rfl

/-- C7, amended: list_directory_contents and read_file_content place even
their progress call inside the try block and so never let anything escape;
search_in_files catches everything in its body, but its progress call
precedes the try, so it never raises only when the sink does not raise. -/
theorem ops_catch_internal_failures (sink : String → Except String Unit)
    (fs : String → Except String PathInfo)
    (compile : String → Option (String → Bool))
    (walkFiles : String → List FileItem)
    (utf8D cp1252D : List Nat → Option String)
    (deps : Deps) (dp : Option String) (fp : Option String)
    (path : String) (ls : Nat) (le : Option Nat)
    (sp : String) (exts : Option (List String)) (mF mT : Nat) :
    (∃ r, listOpFull sink fs compile deps dp fp = Except.ok r)
  ∧ (∃ r, readOpFull sink fs utf8D cp1252D deps path ls le = Except.ok r)
  ∧ ((∀ m, sink m = Except.ok ()) →
      ∃ r, searchOpFull sink fs compile walkFiles utf8D deps sp dp exts mF mT =
        Except.ok r) := by
  refine ⟨⟨_, rfl⟩, ⟨_, rfl⟩, fun h =>
    ⟨searchOp fs compile walkFiles utf8D deps sp dp exts mF mT, ?_⟩⟩
  unfold searchOpFull
  rw [h]
  rfl

/-- C7, witness: the amended statement evaluated with a non-raising sink
and a one-file filesystem. -/
theorem ops_catch_internal_failures_witness :
    ∃ r, searchOpFull okSink (fun _ => Except.ok (PathInfo.dir []))
      (fun _ => some fooPred) (fun _ => [sampleFooFile]) utf8None
      ⟨some "/repo"⟩ "foo" none none 15 100000 = Except.ok r :=
  (ops_catch_internal_failures okSink (fun _ => Except.ok (PathInfo.dir []))
    (fun _ => some fooPred) (fun _ => [sampleFooFile]) utf8None utf8None
    ⟨some "/repo"⟩ none none "x" 1 none "foo" none 15 100000).2.2
    (fun _ => rfl)

/-- C8, counterexample: the claim says a failing progress emission never
fails the operation, but list_directory_contents catches the sink's
exception in its catch-all handler and returns the caught-error result
instead of the normal listing. -/
theorem progress_failure_fails_op_cex :
    listOp (failSink "boom")
      (fun _ => Except.ok (PathInfo.dir [FsEntry.file "a.txt" (some 3)]))
      (fun _ => none) ⟨some "/repo"⟩ none none = ListResult.errCaught "boom"
  ∧ listOp okSink
      (fun _ => Except.ok (PathInfo.dir [FsEntry.file "a.txt" (some 3)]))
      (fun _ => none) ⟨some "/repo"⟩ none none =
      ListResult.ok [FsEntry.file "a.txt" (some 3)]
        "Contents of /repo:\n📄 a.txt (3B)"
  ∧ ListResult.errCaught "boom" ≠
      ListResult.ok [FsEntry.file "a.txt" (some 3)]
        "Contents of /repo:\n📄 a.txt (3B)" := by
  refine ⟨rfl, ?_, by decide⟩
  decide

/-- C8, amended: a raising progress sink always fails the operation it was
given to: search_in_files propagates the exception uncaught (the call
precedes its try block); list_directory_contents and read_file_content
catch it and return the caught-error result in place of the normal one. -/
theorem progress_failure_behavior (fs : String → Except String PathInfo)
    (compile : String → Option (String → Bool))
    (walkFiles : String → List FileItem)
    (utf8D cp1252D : List Nat → Option String)
    (deps : Deps) (dp : Option String) (fp : Option String)
    (sp : String) (exts : Option (List String)) (mF mT : Nat)
    (path : String) (ls : Nat) (le : Option Nat) (m : String) (target : String) :
    (searchOpFull (failSink m) fs compile walkFiles utf8D deps sp dp exts mF mT =
      Except.error m)
  ∧ (resolveDir deps.currentRepoPath dp = ResolveResult.ok target →
      listOp (failSink m) fs compile deps dp fp = ListResult.errCaught m)
  ∧ (pyStrip path ≠ "" → 1 ≤ ls → (∀ x, le = some x → ls ≤ x) →
      resolveFile deps.currentRepoPath path = FileResolve.ok target →
      readOp (failSink m) fs utf8D cp1252D deps path ls le =
        ReadResult.errCaught m) := by
  refine ⟨rfl, fun h => ?_, fun h0 h1 h2 h3 => ?_⟩
  · unfold listOp listBody
    rw [h]
    rfl
  · unfold readOp readBody
    rw [if_neg h0, if_neg (by omega : ¬ ls < 1)]
    cases le with
    | none =>
      rw [if_neg (by simp : ¬ (false = true)), h3]
      rfl
    | some e =>
      have he : ¬ e < ls := Nat.not_lt.mpr (h2 e rfl)
      rw [if_neg (by simpa using he), h3]
      rfl

/-- C8, witness: the amended behavior at a concrete raising sink: search
propagates the exception, list returns the caught-error result. -/
theorem progress_failure_behavior_witness :
    searchOpFull (failSink "down") (fun _ => Except.ok (PathInfo.dir []))
      (fun _ => some fooPred) (fun _ => []) utf8None ⟨some "/r"⟩ "foo" none none
      15 100000 = Except.error "down"
  ∧ listOp (failSink "down") (fun _ => Except.ok (PathInfo.dir []))
      (fun _ => none) ⟨some "/r"⟩ none none = ListResult.errCaught "down" := by
  refine ⟨(progress_failure_behavior (fun _ => Except.ok (PathInfo.dir []))
    (fun _ => some fooPred) (fun _ => []) utf8None utf8None ⟨some "/r"⟩ none none
    "foo" none 15 100000 "x" 1 none "down" "/r").1, ?_⟩
  exact (progress_failure_behavior (fun _ => Except.ok (PathInfo.dir []))
    (fun _ => none) (fun _ => []) utf8None utf8None ⟨some "/r"⟩ none none
    "foo" none 15 100000 "x" 1 none "down" "/r").2.1 (by decide)

/-- C4, counterexample: in the spec scenario (five-line file, "foo" only on
line 3) the claim says the match's context window includes lines 1 through
5, but the code captures only one line before and one after: line 1's text
does not occur in the recorded context. -/
theorem search_context_window_cex :
    ((searchInFiles fooPred utf8None none 15 100000 [sampleFooFile]).matchList.map
      (fun m => m.context)) = ["l2\n>>> foo\nl4"]
  ∧ strContains "l2\n>>> foo\nl4" "l1" = false := by
  decide

/-- C4, amended: the scenario search returns exactly one match record with
line 3, whose context window is lines 2 through 4 of the file (one line of
context on each side, bounded by the file) with line 3 marked by ">>> ",
and the result is not truncated. -/
theorem search_scenario_line3_context :
    (searchInFiles fooPred utf8None none 15 100000 [sampleFooFile]).matchList =
      [{ file := "a.txt", line := 3, context := "l2\n>>> foo\nl4", tokens := 6 }]
  ∧ (searchInFiles fooPred utf8None none 15 100000 [sampleFooFile]).truncated =
      false := by
  decide

/-! Helper lemmas about the read window. -/

/-- The numbering loop preserves the number of lines. -/
theorem numberLines_length (start : Nat) (l : List String) :
    (numberLines start l).length = l.length := by
  induction l generalizing start with
  | nil => rfl
  | cons x xs ih => simp [numberLines, ih]

/-- The k-th numbered line carries number start + k and the k-th input. -/
theorem numberLines_getD (l : List String) (start k : Nat) (h : k < l.length) :
    (numberLines start l).getD k "" = numberedLine (start + k) (l.getD k "") := by
  induction l generalizing start k with
  | nil => simp at h
  | cons x xs ih =>
    cases k with
    | zero => rfl
    | succ n =>
      have hn : n < xs.length := by simpa using h
      have step : (numberLines start (x :: xs)).getD (n + 1) "" =
          (numberLines (start + 1) xs).getD n "" := rfl
      rw [step, ih (start + 1) n hn]
      have harith : start + 1 + n = start + (n + 1) := by omega
      rw [harith]
      rfl

/-- C2: for every file (given by its readlines output) and every valid pair
with lineStart in range, the window holds exactly
min(lineEnd, totalLines) - lineStart + 1 lines, and the k-th of them
(k from 0) is line lineStart + k of the file rendered behind its 1-indexed
number (the rendering strips trailing whitespace, which includes the
newline each readlines line carries).  lineEnd = none is the unbounded
sentinel, behaving as lineEnd = totalLines. -/
theorem read_window_count_and_numbering (lines : List String) (ls : Nat)
    (le : Option Nat) (h1 : 1 ≤ ls) (h2 : ls ≤ lines.length)
    (h3 : ∀ x, le = some x → ls ≤ x) :
    ∃ nb aEnd tN,
      readWindow lines ls le = ReadResult.ok nb ls aEnd lines.length tN
      ∧ nb.length = min (le.getD lines.length) lines.length - ls + 1
      ∧ ∀ k, k < nb.length →
          nb.getD k "" = numberedLine (ls + k) (lines.getD (ls - 1 + k) "") := by
  have hlt : ¬ (lines.length ≤ ls - 1) := by omega
  cases le with
  | none =>
    simp only [readWindow]
    rw [if_neg hlt]
    refine ⟨_, _, _, rfl, ?_, ?_⟩
    · rw [numberLines_length, List.length_take, List.length_drop]
      simp only [Option.getD_none]
      omega
    · intro k hk
      rw [numberLines_length] at hk
      have hsel : k < ((lines.drop (ls - 1)).take
          (min (lines.length - 1) (lines.length - 1) + 1 - (ls - 1))).length := hk
      have hlen : ls - 1 + k < lines.length := by
        have := hsel
        rw [List.length_take, List.length_drop] at this
        omega
      rw [numberLines_getD _ _ _ hk]
      rw [List.getD_eq_getElem _ _ hsel, List.getD_eq_getElem _ _ hlen]
      rw [List.getElem_take, List.getElem_drop]
  | some e =>
    have he : ls ≤ e := h3 e rfl
    simp only [readWindow]
    rw [if_neg hlt]
    refine ⟨_, _, _, rfl, ?_, ?_⟩
    · rw [numberLines_length, List.length_take, List.length_drop]
      simp only [Option.getD_some]
      omega
    · intro k hk
      rw [numberLines_length] at hk
      have hsel : k < ((lines.drop (ls - 1)).take
          (min (e - 1) (lines.length - 1) + 1 - (ls - 1))).length := hk
      have hlen : ls - 1 + k < lines.length := by
        have := hsel
        rw [List.length_take, List.length_drop] at this
        omega
      rw [numberLines_getD _ _ _ hk]
      rw [List.getD_eq_getElem _ _ hsel, List.getD_eq_getElem _ _ hlen]
      rw [List.getElem_take, List.getElem_drop]

/-- C2, witness: the window of lines 2 to 5 of a three-line file holds
exactly min(5,3) - 2 + 1 = 2 lines, numbered 2 and 3. -/
theorem read_window_count_and_numbering_witness :
    ∃ nb aEnd tN,
      readWindow ["a\n", "b\n", "c\n"] 2 (some 5) =
        ReadResult.ok nb 2 aEnd ["a\n", "b\n", "c\n"].length tN
      ∧ nb.length = min ((some 5).getD ["a\n", "b\n", "c\n"].length)
          ["a\n", "b\n", "c\n"].length - 2 + 1
      ∧ ∀ k, k < nb.length →
          nb.getD k "" = numberedLine (2 + k) (["a\n", "b\n", "c\n"].getD (2 - 1 + k) "") :=
  read_window_count_and_numbering ["a\n", "b\n", "c\n"] 2 (some 5)
    (by decide) (by decide) (fun x hx => by cases hx; decide)

/-- C3, counterexample: for a one-line file, lineStart = 5 exceeds the file
length, yet with lineEnd = 2 the operation reports the invalid-argument
error for lineEnd (checked first, tools.py 313-315), not an out-of-range
error, so the claimed "regardless of lineEnd" fails. -/
theorem read_out_of_range_cex :
    readOp okSink (fun _ => Except.ok (PathInfo.file (asciiBytes "a")))
      utf8None utf8None ⟨some "/repo"⟩ "a.txt" 5 (some 2) = ReadResult.errBadEnd
  ∧ ReadResult.errBadEnd ≠ ReadResult.errStartExceeds 5 1 := by
  exact ⟨rfl, by decide⟩

/-- C3, amended: with lineEnd valid (unbounded or at least lineStart), a
lineStart beyond the file length is always the out-of-range error, and a
lineEnd beyond the file length with lineStart in range silently clamps to
the last line and succeeds; but a lineEnd below lineStart is rejected as an
invalid argument before the file is even consulted, taking precedence over
the out-of-range error.  The last conjunct ties the window to the full
operation on the success path. -/
theorem read_start_strict_end_clamped (sink : String → Except String Unit)
    (fs : String → Except String PathInfo)
    (utf8D cp1252D : List Nat → Option String) (deps : Deps)
    (path target content : String) (bytes : List Nat)
    (lines : List String) (ls e : Nat) (le : Option Nat) :
    (lines.length < ls →
      readWindow lines ls le = ReadResult.errStartExceeds ls lines.length)
  ∧ (1 ≤ ls → ls ≤ lines.length → lines.length < e →
      readWindow lines ls (some e) =
        ReadResult.ok (numberLines ls (lines.drop (ls - 1))) ls lines.length
          lines.length false)
  ∧ (pyStrip path ≠ "" → 1 ≤ ls → e < ls →
      readOp sink fs utf8D cp1252D deps path ls (some e) = ReadResult.errBadEnd)
  ∧ ((∀ msg, sink msg = Except.ok ()) → pyStrip path ≠ "" → 1 ≤ ls →
      (∀ x, le = some x → ls ≤ x) →
      resolveFile deps.currentRepoPath path = FileResolve.ok target →
      fs target = Except.ok (PathInfo.file bytes) →
      ¬ (10 * 1024 * 1024 < bytes.length) →
      decodeFirst (readDecoders utf8D cp1252D) bytes = some content →
      readOp sink fs utf8D cp1252D deps path ls le =
        readWindow (pyReadlines content) ls le) := by
  refine ⟨?_, ?_, ?_, ?_⟩
  · intro h
    simp only [readWindow]
    rw [if_pos (by omega)]
  · intro hl hu he
    simp only [readWindow]
    rw [if_neg (by omega)]
    have hmin : min (e - 1) (lines.length - 1) = lines.length - 1 := by omega
    rw [hmin]
    have htake : (lines.drop (ls - 1)).take (lines.length - 1 + 1 - (ls - 1)) =
        lines.drop (ls - 1) := by
      apply List.take_of_length_le
      rw [List.length_drop]
      omega
    rw [htake]
    have hend : ls - 1 + (lines.drop (ls - 1)).length = lines.length := by
      rw [List.length_drop]; omega
    rw [hend]
    simp
  · intro h0 h1 he
    unfold readOp readBody
    rw [if_neg h0, if_neg (by omega : ¬ ls < 1),
      if_pos (by simpa using he)]
  · intro hsink h0 h1 h2 hres hfs hsize hdec
    unfold readOp readBody
    rw [if_neg h0, if_neg (by omega : ¬ ls < 1)]
    cases le with
    | none =>
      rw [if_neg (by simp : ¬ (false = true)), hres]
      simp [pyAwait, hsink, hfs, hdec, hsize]
    | some x =>
      have hx : ¬ x < ls := Nat.not_lt.mpr (h2 x rfl)
      rw [if_neg (by simpa using hx), hres]
      simp [pyAwait, hsink, hfs, hdec, hsize]

/-- C3, witness: the amended behaviors at concrete inputs: out-of-range for
lineStart 5 on a one-line file with valid lineEnd 7, silent clamping of
lineEnd 9 on a two-line file, and the invalid-argument precedence for
lineEnd 2 below lineStart 4. -/
theorem read_start_strict_end_clamped_witness :
    readWindow ["a\n"] 5 (some 7) = ReadResult.errStartExceeds 5 1
  ∧ readWindow ["a\n", "b\n"] 1 (some 9) =
      ReadResult.ok (numberLines 1 (["a\n", "b\n"].drop 0)) 1 2 2 false
  ∧ readOp okSink (fun _ => Except.ok PathInfo.missing) utf8None utf8None
      ⟨some "/repo"⟩ "f.txt" 4 (some 2) = ReadResult.errBadEnd := by
  refine ⟨?_, ?_, ?_⟩
  · exact (read_start_strict_end_clamped okSink
      (fun _ => Except.ok PathInfo.missing) utf8None utf8None ⟨some "/repo"⟩
      "f.txt" "t" "" [] ["a\n"] 5 7 (some 7)).1 (by decide)
  · exact (read_start_strict_end_clamped okSink
      (fun _ => Except.ok PathInfo.missing) utf8None utf8None ⟨some "/repo"⟩
      "f.txt" "t" "" [] ["a\n", "b\n"] 1 9 none).2.1 (by decide) (by decide)
      (by decide)
  · exact (read_start_strict_end_clamped okSink
      (fun _ => Except.ok PathInfo.missing) utf8None utf8None ⟨some "/repo"⟩
      "f.txt" "t" "" [] [] 4 2 none).2.2.1 (by decide) (by decide) (by decide)

/-! Helper lemmas about the decoding fallback. -/

/-- The read fallback list always decodes: its second entry, latin-1, is a
total decoder. -/
theorem readDecoders_some (utf8D cp1252D : List Nat → Option String)
    (bytes : List Nat) :
    ∃ s, decodeFirst (readDecoders utf8D cp1252D) bytes = some s := by
  cases h : utf8D bytes with
  | some s => exact ⟨s, by simp [decodeFirst, readDecoders, h]⟩
  | none => exact ⟨latin1Decode bytes, by simp [decodeFirst, readDecoders, h]⟩

/-- The search fallback list always decodes, for the same reason. -/
theorem searchDecoders_some (utf8D : List Nat → Option String)
    (bytes : List Nat) :
    ∃ s, decodeFirst (searchDecoders utf8D) bytes = some s := by
  cases h : utf8D bytes with
  | some s => exact ⟨s, by simp [decodeFirst, searchDecoders, h]⟩
  | none => exact ⟨latin1Decode bytes, by simp [decodeFirst, searchDecoders, h]⟩

/-- Inversion for an awaited call: a normal result means the awaited call
returned and the body produced that result. -/
theorem pyAwait_ok_iff {α : Type} (x : Except String Unit)
    (k : Except String α) (y : α) :
    pyAwait x k = Except.ok y ↔ (x = Except.ok () ∧ k = Except.ok y) := by
  cases x with
  | error e => simp [pyAwait]
  | ok a => cases a; simp [pyAwait]

theorem readWindow_ne_undecodable (lines : List String) (ls : Nat)
    (le : Option Nat) (t : String) :
    readWindow lines ls le ≠ ReadResult.errUndecodable t := by
  simp only [readWindow]
  split
  all_goals try split
  all_goals simp

theorem readDecoders_eq_none_iff (utf8D cp1252D : List Nat → Option String)
    (bytes : List Nat) :
    (decodeFirst (readDecoders utf8D cp1252D) bytes = none) ↔ False := by
  simp only [iff_false]
  obtain ⟨s, hs⟩ := readDecoders_some utf8D cp1252D bytes
  simp [hs]

theorem readBody_not_undecodable (sink : String → Except String Unit)
    (fs : String → Except String PathInfo)
    (utf8D cp1252D : List Nat → Option String)
    (deps : Deps) (path : String) (ls : Nat) (le : Option Nat) (t : String) :
    readBody sink fs utf8D cp1252D deps path ls le ≠
      Except.ok (ReadResult.errUndecodable t) := by
  unfold readBody
  repeat' split
  all_goals try simp [pyAwait_ok_iff]
  all_goals simp_all [pyAwait_ok_iff, readWindow_ne_undecodable,
    readDecoders_eq_none_iff]


theorem readOp_ne_undecodable (sink : String → Except String Unit)
    (fs : String → Except String PathInfo)
    (utf8D cp1252D : List Nat → Option String)
    (deps : Deps) (path : String) (ls : Nat) (le : Option Nat) (t : String) :
    readOp sink fs utf8D cp1252D deps path ls le ≠
      ReadResult.errUndecodable t := by
  unfold readOp
  intro h
  cases hb : readBody sink fs utf8D cp1252D deps path ls le with
  | error e => rw [hb] at h; simp at h
  | ok r =>
    rw [hb] at h
    simp at h
    exact readBody_not_undecodable sink fs utf8D cp1252D deps path ls le t
      (by rw [hb, h])

theorem searchLoop_count (p : String → Bool) (utf8D : List Nat → Option String)
    (exts : Option (List String)) (mF mT : Nat) :
    ∀ (files : List FileItem) (st : SState),
      (searchLoop p utf8D exts mF mT files st).truncated = false →
      (searchLoop p utf8D exts mF mT files st).filesSearched =
        st.filesSearched + (files.filter (fun f => fileCandidate exts f)).length := by
  intro files
  induction files with
  | nil => intro st _; simp [searchLoop]
  | cons f rest ih =>
    intro st h
    cases h1 : strStartsWith f.name "." with
    | true =>
      have hc : fileCandidate exts f = false := by simp [fileCandidate, h1]
      simp only [searchLoop, h1, if_true] at h ⊢
      rw [ih st h, List.filter_cons_of_neg (by simp [hc])]
    | false =>
      cases h2 : extOk exts f.name with
      | false =>
        have hc : fileCandidate exts f = false := by simp [fileCandidate, h2]
        simp only [searchLoop, h1, h2] at h ⊢
        simp only [Bool.false_eq_true, if_false, Bool.not_false, if_true] at h ⊢
        rw [ih st h, List.filter_cons_of_neg (by simp [hc])]
      | true =>
        by_cases h3 : 1024 * 1024 < f.bytes.length
        · have hc : fileCandidate exts f = false := by simp [fileCandidate, h3]
          simp only [searchLoop, h1, h2, h3] at h ⊢
          simp only [Bool.false_eq_true, if_false, Bool.not_true, if_true] at h ⊢
          rw [ih st h, List.filter_cons_of_neg (by simp [hc])]
        · have hc : fileCandidate exts f = true := by
            simp [fileCandidate, h1, h2, h3]
          obtain ⟨content, hdec⟩ := searchDecoders_some utf8D f.bytes
          simp only [searchLoop, h1, h2, h3] at h ⊢
          simp only [Bool.false_eq_true, if_false, Bool.not_true] at h ⊢
          rw [hdec] at h ⊢
          dsimp only [] at h ⊢
          rcases hsc : scanLines p f.relpath (pySplitNL content) mF mT
            st.filesWithMatches (enumFrom 1 (pySplitNL content)) []
            st.estTokens st.totalFound with ⟨fm, est', tf', trunc⟩
          rw [hsc] at h
          dsimp only [] at h ⊢
          rw [List.filter_cons_of_pos (by simp [hc])]
          cases fm with
          | nil =>
            cases trunc with
            | true => simp at h
            | false =>
              simp at h ⊢
              rw [ih _ (by simpa using h)]
              simp
              omega
          | cons m ms =>
            by_cases h4 : mF ≤ st.filesWithMatches + 1
            · simp [h4] at h
            · cases trunc with
              | true => simp [h4] at h
              | false =>
                simp [h4] at h ⊢
                rw [ih _ (by simpa using h)]
                simp
                omega

/-- C10: the fallback encoding lists of both read_file_content and
search_in_files contain latin-1, which decodes every byte sequence, so the
undecodable-file branch of read is unreachable for every utf-8 and cp1252
decoder, and, when no budget truncates the walk, search scans every file
that passes the name, extension and size filters: decoding never skips a
candidate. -/
theorem decode_fallback_total (sink : String → Except String Unit)
    (fs : String → Except String PathInfo)
    (utf8D cp1252D : List Nat → Option String)
    (deps : Deps) (path : String) (ls : Nat) (le : Option Nat) (t : String)
    (p : String → Bool) (exts : Option (List String)) (mF mT : Nat)
    (files : List FileItem) (bytes : List Nat) :
    (∃ s, decodeFirst (readDecoders utf8D cp1252D) bytes = some s)
  ∧ (∃ s, decodeFirst (searchDecoders utf8D) bytes = some s)
  ∧ (readOp sink fs utf8D cp1252D deps path ls le ≠ ReadResult.errUndecodable t)
  ∧ ((searchInFiles p utf8D exts mF mT files).truncated = false →
      (searchInFiles p utf8D exts mF mT files).filesSearched =
        (files.filter (fun f => fileCandidate exts f)).length) := by
  refine ⟨readDecoders_some utf8D cp1252D bytes, searchDecoders_some utf8D bytes,
    readOp_ne_undecodable sink fs utf8D cp1252D deps path ls le t, fun h => ?_⟩
  have := searchLoop_count p utf8D exts mF mT files {} h
  simpa using this

/-- C10, witness: the scenario search is not truncated and its scanned-file
count equals its candidate count, and the scenario bytes decode. -/
theorem decode_fallback_total_witness :
    (∃ s, decodeFirst (readDecoders utf8None utf8None) sampleFooFile.bytes = some s)
  ∧ (searchInFiles fooPred utf8None none 15 100000 [sampleFooFile]).filesSearched =
      ([sampleFooFile].filter (fun f => fileCandidate none f)).length := by
  refine ⟨(decode_fallback_total okSink (fun _ => Except.ok PathInfo.missing)
    utf8None utf8None ⟨some "/repo"⟩ "x" 1 none "t" fooPred none 15 100000
    [sampleFooFile] sampleFooFile.bytes).1, ?_⟩
  exact (decode_fallback_total okSink (fun _ => Except.ok PathInfo.missing)
    utf8None utf8None ⟨some "/repo"⟩ "x" 1 none "t" fooPred none 15 100000
    [sampleFooFile] sampleFooFile.bytes).2.2.2 (by decide)


/-! Helper lemmas for the directory lister. -/

/-- The boolean comparator decides the lexicographic order on character
lists. -/
theorem charListLt_iff (as bs : List Char) : charListLt as bs = true ↔ as < bs := by
  induction as generalizing bs with
  | nil =>
    cases bs with
    | nil =>
      simp only [charListLt, Bool.false_eq_true, false_iff]
      intro hcon
      cases hcon
    | cons b bs =>
      simp only [charListLt, true_iff]
      exact List.Lex.nil
  | cons a as ih =>
    cases bs with
    | nil =>
      simp only [charListLt, Bool.false_eq_true, false_iff]
      intro hcon
      cases hcon
    | cons b bs =>
      simp only [charListLt]
      by_cases h1 : a < b
      · simp only [h1, if_true, true_iff]
        exact List.Lex.rel h1
      · by_cases h2 : b < a
        · simp only [h1, h2, if_true, if_false, Bool.false_eq_true, false_iff]
          intro hcon
          cases hcon with
          | cons htl => exact absurd h2 (lt_irrefl a)
          | rel hr => exact h1 hr
        · have hab : a = b := le_antisymm (le_of_not_lt h2) (le_of_not_lt h1)
          subst hab
          simp only [h1, if_false, ih]
          constructor
          · exact fun h => List.Lex.cons h
          · intro hcon
            cases hcon with
            | cons htl => exact htl
            | rel hr => exact absurd hr h1

/-- The boolean comparator decides the order the sort claims. -/
theorem strLeB_le_iff (a b : String) : strLeB a b = true ↔ a ≤ b := by
  have h1 : strLeB a b = true ↔ ¬ charListLt b.data a.data = true := by
    simp [strLeB]
  rw [h1, charListLt_iff]
  have h2 : (b.data < a.data) ↔ b < a := (String.lt_iff_toList_lt).symm
  rw [h2, not_lt]

theorem compilePattern_ok_some (compile : String → Option (String → Bool))
    (fp : Option String) (f : String → Bool)
    (h : compilePattern compile fp = Except.ok (some f)) :
    ∃ fpat, fp = some fpat ∧ fpat ≠ "" ∧ compile (pyStrip fpat) = some f := by
  cases fp with
  | none => simp [compilePattern] at h
  | some fpat =>
    simp only [compilePattern] at h
    split at h
    · simp at h
    · rename_i hne
      cases hc : compile (pyStrip fpat) with
      | none => rw [hc] at h; simp at h
      | some g =>
        rw [hc] at h
        simp only [Except.ok.injEq, Option.some.injEq] at h
        exact ⟨fpat, rfl, hne, by rw [hc, h]⟩

theorem compilePattern_error_shape (compile : String → Option (String → Bool))
    (fp : Option String) (r : ListResult)
    (h : compilePattern compile fp = Except.error r) :
    ∃ fpat, fp = some fpat ∧ r = ListResult.errBadPattern fpat := by
  cases fp with
  | none => simp [compilePattern] at h
  | some fpat =>
    simp only [compilePattern] at h
    split at h
    · simp at h
    · cases hc : compile (pyStrip fpat) with
      | none =>
        rw [hc] at h
        simp only [Except.error.injEq] at h
        exact ⟨fpat, rfl, h.symm⟩
      | some g => rw [hc] at h; simp at h

/-- A hidden name survives the loop only under a compiled, matching
pattern. -/
theorem keepEntry_hidden (pat : Option (String → Bool)) (name : String)
    (hk : keepEntry pat name = true) (hh : strStartsWith name "." = true) :
    ∃ f, pat = some f ∧ f name = true := by
  cases pat with
  | none => simp [keepEntry, skipHidden, skipUnmatched, hh] at hk
  | some f =>
    refine ⟨f, rfl, ?_⟩
    by_contra hf
    simp [keepEntry, skipHidden, skipUnmatched, hh, hf] at hk

/-- Inversion of a successful listing: the entries are the kept, sorted
survivors of the directory for the compiled pattern. -/
theorem listOp_ok_inv (sink : String → Except String Unit)
    (fs : String → Except String PathInfo)
    (compile : String → Option (String → Bool))
    (deps : Deps) (dp : Option String) (fp : Option String)
    (entries : List FsEntry) (text : String)
    (h : listOp sink fs compile deps dp fp = ListResult.ok entries text) :
    ∃ (es : List FsEntry) (pat : Option (String → Bool)),
      compilePattern compile fp = Except.ok pat
      ∧ entries = (List.insertionSort entryLE es).filter
          (fun e => keepEntry pat e.name) := by
  unfold listOp at h
  cases hb : listBody sink fs compile deps dp fp with
  | error e => rw [hb] at h; simp at h
  | ok r =>
    rw [hb] at h
    simp at h
    subst h
    unfold listBody at hb
    cases hr : resolveDir deps.currentRepoPath dp with
    | noRoot => rw [hr] at hb; simp at hb
    | ok target =>
      rw [hr] at hb
      dsimp only [] at hb
      rw [pyAwait_ok_iff] at hb
      obtain ⟨hs, hb⟩ := hb
      cases hf : fs target with
      | error e => rw [hf] at hb; simp at hb
      | ok info =>
        rw [hf] at hb
        cases info with
        | missing => simp at hb
        | file bytes => simp at hb
        | dir es =>
          dsimp only [] at hb
          cases hcp : compilePattern compile fp with
          | error r2 =>
            rw [hcp] at hb
            obtain ⟨fpat, hfp, hshape⟩ :=
              compilePattern_error_shape compile fp r2 hcp
            subst hshape
            simp at hb
          | ok pat =>
            rw [hcp] at hb
            dsimp only [] at hb
            by_cases hemp : ((List.insertionSort entryLE es).filter
                (fun e => keepEntry pat e.name)).isEmpty = true
            · simp [hemp] at hb
            · simp only [hemp, if_false, Bool.false_eq_true,
                Except.ok.injEq, ListResult.ok.injEq] at hb
              exact ⟨es, pat, rfl, hb.1.symm⟩

/-- C6: a successful listing never contains an entry whose name starts with
a dot unless a non-empty filter pattern was supplied, compiled, and matches
that name; and the surviving entries appear in lexicographic name order. -/
theorem list_hidden_and_sorted (sink : String → Except String Unit)
    (fs : String → Except String PathInfo)
    (compile : String → Option (String → Bool))
    (deps : Deps) (dp : Option String) (fp : Option String)
    (entries : List FsEntry) (text : String)
    (h : listOp sink fs compile deps dp fp = ListResult.ok entries text) :
    (∀ e ∈ entries, strStartsWith e.name "." = true →
      ∃ fpat f, fp = some fpat ∧ fpat ≠ "" ∧ compile (pyStrip fpat) = some f
        ∧ f e.name = true)
  ∧ List.Sorted (fun a b : String => a ≤ b) (entries.map FsEntry.name) := by
  obtain ⟨es, pat, hcp, hent⟩ :=
    listOp_ok_inv sink fs compile deps dp fp entries text h
  constructor
  · intro e he hh
    rw [hent] at he
    have hk := (List.mem_filter.mp he).2
    obtain ⟨f, hpat, hf⟩ := keepEntry_hidden pat e.name hk hh
    subst hpat
    obtain ⟨fpat, hfp, hne, hcf⟩ := compilePattern_ok_some compile fp f hcp
    exact ⟨fpat, f, hfp, hne, hcf, hf⟩
  · rw [hent]
    haveI : IsTotal FsEntry entryLE :=
      ⟨fun a b => by
        rcases le_total a.name b.name with hab | hba
        · exact Or.inl ((strLeB_le_iff a.name b.name).mpr hab)
        · exact Or.inr ((strLeB_le_iff b.name a.name).mpr hba)⟩
    haveI : IsTrans FsEntry entryLE :=
      ⟨fun a b c h1 h2 => (strLeB_le_iff a.name c.name).mpr
        (le_trans ((strLeB_le_iff a.name b.name).mp h1)
          ((strLeB_le_iff b.name c.name).mp h2))⟩
    have hs : List.Sorted entryLE (List.insertionSort entryLE es) :=
      List.sorted_insertionSort entryLE es
    have hs2 : List.Sorted entryLE ((List.insertionSort entryLE es).filter
        (fun e => keepEntry pat e.name)) :=
      List.Pairwise.sublist (List.filter_sublist _) hs
    exact List.Pairwise.map FsEntry.name
      (fun a b hab => (strLeB_le_iff a.name b.name).mp hab) hs2


/-- A pattern compiler for the witness: only the pattern "git" compiles,
to a matcher that tests for the substring "git". -/
def gitCompile : String → Option (String → Bool) :=
  fun s => if s = "git" then some (fun n => strContains n "git") else none

/-- A one-directory filesystem for the witness, holding a visible file and
a hidden one. -/
def gitDirFs : String → Except String PathInfo :=
  fun _ => Except.ok (PathInfo.dir
    [FsEntry.file "a.txt" (some 3), FsEntry.file ".gitignore" (some 10)])

/-- C6, witness: with filter pattern "git" the hidden .gitignore entry is
returned because the pattern matches it, a.txt is filtered out, and the
theorem's conclusions hold for the resulting listing. -/
theorem list_hidden_and_sorted_witness :
    (∀ e ∈ [FsEntry.file ".gitignore" (some 10)],
      strStartsWith e.name "." = true →
      ∃ fpat f, (some "git" : Option String) = some fpat ∧ fpat ≠ ""
        ∧ gitCompile (pyStrip fpat) = some f ∧ f e.name = true)
  ∧ List.Sorted (fun a b : String => a ≤ b)
      ([FsEntry.file ".gitignore" (some 10)].map FsEntry.name) :=
  list_hidden_and_sorted okSink gitDirFs gitCompile ⟨some "/repo"⟩ none
    (some "git") [FsEntry.file ".gitignore" (some 10)]
    "Contents of /repo: (filtered by 'git')\n📄 .gitignore (10B)" (by decide)


/-! Helper lemmas for the budgeted searcher. -/

theorem sumT_append (a b : List MatchRec) : sumT (a ++ b) = sumT a + sumT b := by
  simp [sumT]

theorem scanFree_extends (p : String → Bool) (rp : String) (lines : List String) :
    ∀ (rest : List (Nat × String)) (fm : List MatchRec) (tf : Nat),
      ∃ ext, (scanFree p rp lines rest fm tf).1 = fm ++ ext := by
  intro rest
  induction rest with
  | nil => intro fm tf; exact ⟨[], by simp [scanFree]⟩
  | cons hd rest ih =>
    intro fm tf
    obtain ⟨ln, l⟩ := hd
    simp only [scanFree]
    by_cases hp : p l = true
    · simp only [hp, if_true]
      by_cases h3 : 3 ≤ (fm ++ [mkMatch rp lines ln]).length
      · exact ⟨[mkMatch rp lines ln], by rw [if_pos h3]⟩
      · rw [if_neg h3]
        obtain ⟨e, he⟩ := ih (fm ++ [mkMatch rp lines ln]) (tf + 1)
        exact ⟨[mkMatch rp lines ln] ++ e, by simp [he]⟩
    · simp only [hp, Bool.false_eq_true, if_false]
      exact ih fm tf

theorem scanLines_extends (p : String → Bool) (rp : String) (lines : List String)
    (mF mT fwm : Nat) :
    ∀ (rest : List (Nat × String)) (fm : List MatchRec) (est tf : Nat),
      ∃ ext, (scanLines p rp lines mF mT fwm rest fm est tf).1 = fm ++ ext
        ∧ ∀ m ∈ ext, m.file = rp := by
  intro rest
  induction rest with
  | nil => exact fun fm est tf => ⟨[], by simp [scanLines], by simp⟩
  | cons hd rest ih =>
    intro fm est tf
    obtain ⟨ln, l⟩ := hd
    simp only [scanLines]
    by_cases hp : p l = true
    · simp only [hp, if_true]
      by_cases hchk : mT < est + (mkMatch rp lines ln).tokens ∨ mF ≤ fwm
      · exact ⟨[], by rw [if_pos hchk]; simp, by simp⟩
      · rw [if_neg hchk]
        by_cases h3 : 3 ≤ (fm ++ [mkMatch rp lines ln]).length
        · exact ⟨[mkMatch rp lines ln], by rw [if_pos h3], by simp [mkMatch]⟩
        · rw [if_neg h3]
          obtain ⟨e, he, hfile⟩ := ih (fm ++ [mkMatch rp lines ln])
            (est + (mkMatch rp lines ln).tokens) (tf + 1)
          refine ⟨[mkMatch rp lines ln] ++ e, by simp [he], ?_⟩
          intro m hm
          rcases List.mem_append.mp hm with hm1 | hm2
          · rw [List.mem_singleton.mp hm1]; rfl
          · exact hfile m hm2
    · simp only [hp, Bool.false_eq_true, if_false]
      exact ih fm est tf

theorem scanLines_est (p : String → Bool) (rp : String) (lines : List String)
    (mF mT fwm : Nat) :
    ∀ (rest : List (Nat × String)) (fm : List MatchRec) (est tf : Nat),
      (scanLines p rp lines mF mT fwm rest fm est tf).2.1 + sumT fm =
        est + sumT (scanLines p rp lines mF mT fwm rest fm est tf).1 := by
  intro rest
  induction rest with
  | nil => intro fm est tf; simp [scanLines]
  | cons hd rest ih =>
    intro fm est tf
    obtain ⟨ln, l⟩ := hd
    simp only [scanLines]
    by_cases hp : p l = true
    · simp only [hp, if_true]
      have hsing : sumT [mkMatch rp lines ln] = (mkMatch rp lines ln).tokens := by
        simp [sumT]
      by_cases hchk : mT < est + (mkMatch rp lines ln).tokens ∨ mF ≤ fwm
      · rw [if_pos hchk]
      · rw [if_neg hchk]
        by_cases h3 : 3 ≤ (fm ++ [mkMatch rp lines ln]).length
        · rw [if_pos h3]
          dsimp only []
          rw [sumT_append, hsing]
          omega
        · rw [if_neg h3]
          have hrec := ih (fm ++ [mkMatch rp lines ln])
            (est + (mkMatch rp lines ln).tokens) (tf + 1)
          rw [sumT_append, hsing] at hrec
          omega
    · simp only [hp, Bool.false_eq_true, if_false]
      exact ih fm est tf

theorem scanLines_est_le (p : String → Bool) (rp : String) (lines : List String)
    (mF mT fwm : Nat) :
    ∀ (rest : List (Nat × String)) (fm : List MatchRec) (est tf : Nat),
      est ≤ mT →
      (scanLines p rp lines mF mT fwm rest fm est tf).2.1 ≤ mT := by
  intro rest
  induction rest with
  | nil => intro fm est tf h; simpa [scanLines] using h
  | cons hd rest ih =>
    intro fm est tf h
    obtain ⟨ln, l⟩ := hd
    simp only [scanLines]
    by_cases hp : p l = true
    · simp only [hp, if_true]
      by_cases hchk : mT < est + (mkMatch rp lines ln).tokens ∨ mF ≤ fwm
      · rw [if_pos hchk]
        exact h
      · rw [if_neg hchk]
        have hle : est + (mkMatch rp lines ln).tokens ≤ mT := by
          rcases not_or.mp hchk with ⟨h1, _⟩
          omega
        by_cases h3 : 3 ≤ (fm ++ [mkMatch rp lines ln]).length
        · rw [if_pos h3]
          exact hle
        · rw [if_neg h3]
          exact ih _ _ _ hle
    · simp only [hp, Bool.false_eq_true, if_false]
      exact ih fm est tf h

theorem scanLines_fwm (p : String → Bool) (rp : String) (lines : List String)
    (mF mT fwm : Nat) :
    ∀ (rest : List (Nat × String)) (fm : List MatchRec) (est tf : Nat),
      (scanLines p rp lines mF mT fwm rest fm est tf).1 ≠ fm → fwm < mF := by
  intro rest
  induction rest with
  | nil => intro fm est tf h; exact absurd rfl h
  | cons hd rest ih =>
    intro fm est tf h
    obtain ⟨ln, l⟩ := hd
    simp only [scanLines] at h
    by_cases hp : p l = true
    · simp only [hp, if_true] at h
      by_cases hchk : mT < est + (mkMatch rp lines ln).tokens ∨ mF ≤ fwm
      · rw [if_pos hchk] at h
        exact absurd rfl h
      · rcases not_or.mp hchk with ⟨_, h2⟩
        omega
    · simp only [hp, Bool.false_eq_true, if_false] at h
      exact ih fm est tf h

theorem scanLines_agree (p : String → Bool) (rp : String) (lines : List String)
    (mF mT fwm : Nat) :
    ∀ (rest : List (Nat × String)) (fm : List MatchRec) (est tf : Nat),
      (scanLines p rp lines mF mT fwm rest fm est tf).2.2.2 = false →
      scanFree p rp lines rest fm tf =
        ((scanLines p rp lines mF mT fwm rest fm est tf).1,
          (scanLines p rp lines mF mT fwm rest fm est tf).2.2.1) := by
  intro rest
  induction rest with
  | nil => intro fm est tf _; simp [scanFree, scanLines]
  | cons hd rest ih =>
    intro fm est tf h
    obtain ⟨ln, l⟩ := hd
    simp only [scanLines] at h ⊢
    simp only [scanFree]
    by_cases hp : p l = true
    · simp only [hp, if_true] at h ⊢
      by_cases hchk : mT < est + (mkMatch rp lines ln).tokens ∨ mF ≤ fwm
      · rw [if_pos hchk] at h
        simp at h
      · rw [if_neg hchk] at h ⊢
        by_cases h3 : 3 ≤ (fm ++ [mkMatch rp lines ln]).length
        · simp only [if_pos h3] at h ⊢
        · simp only [if_neg h3] at h ⊢
          exact ih _ _ _ h
    · simp only [hp, Bool.false_eq_true, if_false] at h ⊢
      exact ih fm est tf h

theorem scanLines_prefix (p : String → Bool) (rp : String) (lines : List String)
    (mF mT fwm : Nat) :
    ∀ (rest : List (Nat × String)) (fm : List MatchRec) (est tf : Nat),
      ∃ ext, (scanFree p rp lines rest fm tf).1 =
        (scanLines p rp lines mF mT fwm rest fm est tf).1 ++ ext := by
  intro rest
  induction rest with
  | nil => intro fm est tf; exact ⟨[], by simp [scanFree, scanLines]⟩
  | cons hd rest ih =>
    intro fm est tf
    obtain ⟨ln, l⟩ := hd
    simp only [scanFree, scanLines]
    by_cases hp : p l = true
    · simp only [hp, if_true]
      by_cases hchk : mT < est + (mkMatch rp lines ln).tokens ∨ mF ≤ fwm
      · rw [if_pos hchk]
        by_cases h3 : 3 ≤ (fm ++ [mkMatch rp lines ln]).length
        · exact ⟨[mkMatch rp lines ln], by rw [if_pos h3]⟩
        · rw [if_neg h3]
          obtain ⟨e, he⟩ := scanFree_extends p rp lines rest
            (fm ++ [mkMatch rp lines ln]) (tf + 1)
          exact ⟨[mkMatch rp lines ln] ++ e, by simp [he]⟩
      · rw [if_neg hchk]
        by_cases h3 : 3 ≤ (fm ++ [mkMatch rp lines ln]).length
        · rw [if_pos h3, if_pos h3]
          exact ⟨[], by simp⟩
        · rw [if_neg h3, if_neg h3]
          exact ih _ _ _
    · simp only [hp, Bool.false_eq_true, if_false]
      exact ih fm est tf


theorem toFinset_card_le_one (l : List String) (x : String)
    (h : ∀ y ∈ l, y = x) : l.toFinset.card ≤ 1 := by
  have hsub : l.toFinset ⊆ {x} := by
    intro y hy
    rw [List.mem_toFinset] at hy
    rw [Finset.mem_singleton]
    exact h y hy
  calc l.toFinset.card ≤ ({x} : Finset String).card := Finset.card_le_card hsub
    _ = 1 := Finset.card_singleton x

theorem dcount_append (a b : List MatchRec) (rp : String)
    (hb : ∀ m ∈ b, m.file = rp) :
    (((a ++ b).map (fun m => m.file)).toFinset.card : Nat) ≤
      ((a.map (fun m => m.file)).toFinset.card : Nat) + 1 := by
  rw [List.map_append, List.toFinset_append]
  have h1 := Finset.card_union_le ((a.map (fun m => m.file)).toFinset)
    ((b.map (fun m => m.file)).toFinset)
  have h2 : ((b.map (fun m => m.file)).toFinset.card : Nat) ≤ 1 := by
    apply toFinset_card_le_one _ rp
    intro y hy
    obtain ⟨m, hm, hmy⟩ := List.mem_map.mp hy
    rw [← hmy]
    exact hb m hm
  omega

theorem searchFreeLoop_extends (p : String → Bool)
    (utf8D : List Nat → Option String) (exts : Option (List String)) :
    ∀ (files : List FileItem) (st : SState),
      ∃ ext, (searchFreeLoop p utf8D exts files st).matchList =
        st.matchList ++ ext := by
  intro files
  induction files with
  | nil => intro st; exact ⟨[], by simp [searchFreeLoop]⟩
  | cons f rest ih =>
    intro st
    cases h1 : strStartsWith f.name "." with
    | true =>
      simp only [searchFreeLoop, h1, if_true]
      exact ih st
    | false =>
      cases h2 : extOk exts f.name with
      | false =>
        simp only [searchFreeLoop, h1, h2, Bool.false_eq_true, if_false,
          Bool.not_false, if_true]
        exact ih st
      | true =>
        by_cases h3 : 1024 * 1024 < f.bytes.length
        · simp only [searchFreeLoop, h1, h2, h3, Bool.false_eq_true, if_false,
            Bool.not_true, if_true]
          exact ih st
        · obtain ⟨content, hdec⟩ := searchDecoders_some utf8D f.bytes
          simp only [searchFreeLoop, h1, h2, h3, Bool.false_eq_true, if_false,
            Bool.not_true]
          rw [hdec]
          dsimp only []
          rcases hscF : scanFree p f.relpath (pySplitNL content)
            (enumFrom 1 (pySplitNL content)) [] st.totalFound with ⟨fmF, tfF⟩
          dsimp only []
          by_cases hemp : fmF.isEmpty = true
          · rw [if_pos hemp]
            exact ih _
          · rw [if_neg hemp]
            obtain ⟨e, he⟩ := ih ⟨st.matchList ++ fmF, st.filesSearched + 1,
              tfF, st.estTokens + sumT fmF, st.filesWithMatches + 1,
              st.truncated⟩
            exact ⟨fmF ++ e, by rw [he]; simp⟩


theorem searchLoop_inv (p : String → Bool) (utf8D : List Nat → Option String)
    (exts : Option (List String)) (mF mT : Nat) :
    ∀ (files : List FileItem) (st : SState),
      ((st.matchList.map (fun m => m.file)).toFinset.card ≤ st.filesWithMatches) →
      st.filesWithMatches ≤ mF →
      st.estTokens = sumT st.matchList →
      st.estTokens ≤ mT →
      (((searchLoop p utf8D exts mF mT files st).matchList.map
          (fun m => m.file)).toFinset.card ≤
        (searchLoop p utf8D exts mF mT files st).filesWithMatches)
      ∧ (searchLoop p utf8D exts mF mT files st).filesWithMatches ≤ mF
      ∧ (searchLoop p utf8D exts mF mT files st).estTokens =
          sumT (searchLoop p utf8D exts mF mT files st).matchList
      ∧ (searchLoop p utf8D exts mF mT files st).estTokens ≤ mT := by
  intro files
  induction files with
  | nil =>
    intro st hA hB hC hD
    simp only [searchLoop]
    exact ⟨hA, hB, hC, hD⟩
  | cons f rest ih =>
    intro st hA hB hC hD
    cases h1 : strStartsWith f.name "." with
    | true =>
      simp only [searchLoop, h1, if_true]
      exact ih st hA hB hC hD
    | false =>
      cases h2 : extOk exts f.name with
      | false =>
        simp only [searchLoop, h1, h2, Bool.false_eq_true, if_false,
          Bool.not_false, if_true]
        exact ih st hA hB hC hD
      | true =>
        by_cases h3 : 1024 * 1024 < f.bytes.length
        · simp only [searchLoop, h1, h2, h3, Bool.false_eq_true, if_false,
            Bool.not_true, if_true]
          exact ih st hA hB hC hD
        · obtain ⟨content, hdec⟩ := searchDecoders_some utf8D f.bytes
          simp only [searchLoop, h1, h2, h3, Bool.false_eq_true, if_false,
            Bool.not_true]
          rw [hdec]
          dsimp only []
          rcases hsc : scanLines p f.relpath (pySplitNL content) mF mT
            st.filesWithMatches (enumFrom 1 (pySplitNL content)) []
            st.estTokens st.totalFound with ⟨fm, est', tf', trunc⟩
          dsimp only []
          have hest : est' = st.estTokens + sumT fm := by
            have h := scanLines_est p f.relpath (pySplitNL content) mF mT
              st.filesWithMatches (enumFrom 1 (pySplitNL content)) []
              st.estTokens st.totalFound
            rw [hsc] at h
            dsimp only [] at h
            simpa [sumT] using h
          have hestle : est' ≤ mT := by
            have h := scanLines_est_le p f.relpath (pySplitNL content) mF mT
              st.filesWithMatches (enumFrom 1 (pySplitNL content)) []
              st.estTokens st.totalFound hD
            rw [hsc] at h
            exact h
          have hfl : ∀ m ∈ fm, m.file = f.relpath := by
            obtain ⟨ext, hext, hfl⟩ := scanLines_extends p f.relpath
              (pySplitNL content) mF mT st.filesWithMatches
              (enumFrom 1 (pySplitNL content)) [] st.estTokens st.totalFound
            rw [hsc] at hext
            dsimp only [] at hext
            rw [List.nil_append] at hext
            rw [hext]
            exact hfl
          cases fm with
          | nil =>
            have hest0 : est' = st.estTokens := by simpa [sumT] using hest
            cases trunc with
            | true =>
              simp only [List.isEmpty_nil, if_true]
              refine ⟨?_, ?_, ?_, ?_⟩ <;> dsimp only []
              · exact hA
              · exact hB
              · rw [hest0, hC]
              · rw [hest0]; exact hD
            | false =>
              simp only [List.isEmpty_nil, if_true, Bool.false_eq_true, if_false]
              refine ih _ ?_ ?_ ?_ ?_ <;> dsimp only []
              · exact hA
              · exact hB
              · rw [hest0, hC]
              · rw [hest0]; exact hD
          | cons m ms =>
            have hfwm : st.filesWithMatches < mF := by
              apply scanLines_fwm p f.relpath (pySplitNL content) mF mT
                st.filesWithMatches (enumFrom 1 (pySplitNL content)) []
                st.estTokens st.totalFound
              rw [hsc]
              simp
            have hcard : (((st.matchList ++ m :: ms).map
                (fun x => x.file)).toFinset.card : Nat) ≤
                st.filesWithMatches + 1 := by
              have := dcount_append st.matchList (m :: ms) f.relpath hfl
              omega
            have hsum : est' = sumT (st.matchList ++ m :: ms) := by
              rw [sumT_append, ← hC, hest]
            by_cases h4 : mF ≤ st.filesWithMatches + 1
            · simp only [List.isEmpty_cons, Bool.false_eq_true, if_false,
                if_pos h4]
              refine ⟨?_, ?_, ?_, ?_⟩ <;> dsimp only []
              · exact hcard
              · omega
              · exact hsum
              · exact hestle
            · simp only [List.isEmpty_cons, Bool.false_eq_true, if_false,
                if_neg h4]
              cases trunc with
              | true =>
                simp only [if_true]
                refine ⟨?_, ?_, ?_, ?_⟩ <;> dsimp only []
                · exact hcard
                · omega
                · exact hsum
                · exact hestle
              | false =>
                simp only [Bool.false_eq_true, if_false]
                refine ih _ ?_ ?_ ?_ ?_ <;> dsimp only []
                · exact hcard
                · omega
                · exact hsum
                · exact hestle


theorem searchLoop_agree (p : String → Bool) (utf8D : List Nat → Option String)
    (exts : Option (List String)) (mF mT : Nat) :
    ∀ (files : List FileItem) (st : SState),
      (searchLoop p utf8D exts mF mT files st).truncated = false →
      searchFreeLoop p utf8D exts files st =
        searchLoop p utf8D exts mF mT files st := by
  intro files
  induction files with
  | nil => intro st _; rfl
  | cons f rest ih =>
    intro st h
    cases h1 : strStartsWith f.name "." with
    | true =>
      simp only [searchLoop, h1, if_true] at h ⊢
      simp only [searchFreeLoop, h1, if_true]
      exact ih st h
    | false =>
      cases h2 : extOk exts f.name with
      | false =>
        simp only [searchLoop, h1, h2, Bool.false_eq_true, if_false,
          Bool.not_false, if_true] at h ⊢
        simp only [searchFreeLoop, h1, h2, Bool.false_eq_true, if_false,
          Bool.not_false, if_true]
        exact ih st h
      | true =>
        by_cases h3 : 1024 * 1024 < f.bytes.length
        · simp only [searchLoop, h1, h2, h3, Bool.false_eq_true, if_false,
            Bool.not_true, if_true] at h ⊢
          simp only [searchFreeLoop, h1, h2, h3, Bool.false_eq_true, if_false,
            Bool.not_true, if_true]
          exact ih st h
        · obtain ⟨content, hdec⟩ := searchDecoders_some utf8D f.bytes
          simp only [searchLoop, h1, h2, h3, Bool.false_eq_true, if_false,
            Bool.not_true] at h ⊢
          simp only [searchFreeLoop, h1, h2, h3, Bool.false_eq_true, if_false,
            Bool.not_true]
          rw [hdec] at h ⊢
          dsimp only [] at h ⊢
          rcases hsc : scanLines p f.relpath (pySplitNL content) mF mT
            st.filesWithMatches (enumFrom 1 (pySplitNL content)) []
            st.estTokens st.totalFound with ⟨fm, est', tf', trunc⟩
          rw [hsc] at h
          dsimp only [] at h ⊢
          have hest : est' = st.estTokens + sumT fm := by
            have hq := scanLines_est p f.relpath (pySplitNL content) mF mT
              st.filesWithMatches (enumFrom 1 (pySplitNL content)) []
              st.estTokens st.totalFound
            rw [hsc] at hq
            dsimp only [] at hq
            simpa [sumT] using hq
          cases trunc with
          | true =>
            exfalso
            by_cases hemp : fm.isEmpty = true
            · simp [hemp] at h
            · by_cases h4 : mF ≤ st.filesWithMatches + 1
              · simp [hemp, h4] at h
              · simp [hemp, h4] at h
          | false =>
            have hagree : scanFree p f.relpath (pySplitNL content)
                (enumFrom 1 (pySplitNL content)) [] st.totalFound = (fm, tf') := by
              have hq := scanLines_agree p f.relpath (pySplitNL content) mF mT
                st.filesWithMatches (enumFrom 1 (pySplitNL content)) []
                st.estTokens st.totalFound (by rw [hsc])
              rw [hsc] at hq
              exact hq
            rw [hagree]
            dsimp only []
            cases fm with
            | nil =>
              simp only [List.isEmpty_nil, if_true, Bool.false_eq_true,
                if_false] at h ⊢
              rw [hest] at h ⊢
              exact ih _ h
            | cons m ms =>
              simp only [List.isEmpty_cons, Bool.false_eq_true, if_false] at h ⊢
              by_cases h4 : mF ≤ st.filesWithMatches + 1
              · rw [if_pos h4] at h
                simp at h
              · rw [if_neg h4] at h ⊢
                rw [hest] at h ⊢
                exact ih _ h


theorem searchLoop_prefix (p : String → Bool) (utf8D : List Nat → Option String)
    (exts : Option (List String)) (mF mT : Nat) :
    ∀ (files : List FileItem) (st : SState),
      ∃ ext, (searchFreeLoop p utf8D exts files st).matchList =
        (searchLoop p utf8D exts mF mT files st).matchList ++ ext := by
  intro files
  induction files with
  | nil => intro st; exact ⟨[], by simp [searchLoop, searchFreeLoop]⟩
  | cons f rest ih =>
    intro st
    cases h1 : strStartsWith f.name "." with
    | true =>
      simp only [searchLoop, searchFreeLoop, h1, if_true]
      exact ih st
    | false =>
      cases h2 : extOk exts f.name with
      | false =>
        simp only [searchLoop, searchFreeLoop, h1, h2, Bool.false_eq_true,
          if_false, Bool.not_false, if_true]
        exact ih st
      | true =>
        by_cases h3 : 1024 * 1024 < f.bytes.length
        · simp only [searchLoop, searchFreeLoop, h1, h2, h3,
            Bool.false_eq_true, if_false, Bool.not_true, if_true]
          exact ih st
        · obtain ⟨content, hdec⟩ := searchDecoders_some utf8D f.bytes
          simp only [searchLoop, searchFreeLoop, h1, h2, h3,
            Bool.false_eq_true, if_false, Bool.not_true]
          rw [hdec]
          dsimp only []
          rcases hsc : scanLines p f.relpath (pySplitNL content) mF mT
            st.filesWithMatches (enumFrom 1 (pySplitNL content)) []
            st.estTokens st.totalFound with ⟨fm, est', tf', trunc⟩
          rcases hscF : scanFree p f.relpath (pySplitNL content)
            (enumFrom 1 (pySplitNL content)) [] st.totalFound with ⟨fmF, tfF⟩
          dsimp only []
          have hest : est' = st.estTokens + sumT fm := by
            have hq := scanLines_est p f.relpath (pySplitNL content) mF mT
              st.filesWithMatches (enumFrom 1 (pySplitNL content)) []
              st.estTokens st.totalFound
            rw [hsc] at hq
            dsimp only [] at hq
            simpa [sumT] using hq
          cases trunc with
          | false =>
            have hag : (fmF, tfF) = (fm, tf') := by
              rw [← hscF]
              have hq := scanLines_agree p f.relpath (pySplitNL content) mF mT
                st.filesWithMatches (enumFrom 1 (pySplitNL content)) []
                st.estTokens st.totalFound (by rw [hsc])
              rw [hsc] at hq
              exact hq
            injection hag with h5 h6
            subst h5
            subst h6
            cases fmF with
            | nil =>
              simp only [List.isEmpty_nil, if_true, Bool.false_eq_true,
                if_false]
              rw [hest]
              exact ih _
            | cons m ms =>
              simp only [List.isEmpty_cons, Bool.false_eq_true, if_false]
              by_cases h4 : mF ≤ st.filesWithMatches + 1
              · rw [if_pos h4]
                dsimp only []
                obtain ⟨e, he⟩ := searchFreeLoop_extends p utf8D exts rest
                  ⟨st.matchList ++ m :: ms, st.filesSearched + 1, tfF,
                    st.estTokens + sumT (m :: ms), st.filesWithMatches + 1,
                    st.truncated⟩
                exact ⟨e, by rw [he]⟩
              · rw [if_neg h4]
                rw [hest]
                exact ih _
          | true =>
            have hpre : ∃ e0, fmF = fm ++ e0 := by
              obtain ⟨e0, he0⟩ := scanLines_prefix p f.relpath
                (pySplitNL content) mF mT st.filesWithMatches
                (enumFrom 1 (pySplitNL content)) [] st.estTokens st.totalFound
              rw [hsc, hscF] at he0
              exact ⟨e0, he0⟩
            obtain ⟨e0, he0⟩ := hpre
            subst he0
            cases fm with
            | nil =>
              simp only [List.isEmpty_nil, if_true, List.nil_append]
              by_cases hempF : (e0 : List MatchRec).isEmpty = true
              · rw [if_pos hempF]
                obtain ⟨e, he⟩ := searchFreeLoop_extends p utf8D exts rest
                  ⟨st.matchList, st.filesSearched + 1, tfF,
                    st.estTokens + sumT e0, st.filesWithMatches, st.truncated⟩
                exact ⟨e, by rw [he]⟩
              · rw [if_neg hempF]
                obtain ⟨e, he⟩ := searchFreeLoop_extends p utf8D exts rest
                  ⟨st.matchList ++ e0, st.filesSearched + 1, tfF,
                    st.estTokens + sumT e0, st.filesWithMatches + 1,
                    st.truncated⟩
                refine ⟨e0 ++ e, ?_⟩
                rw [he]
                dsimp only []
                rw [List.append_assoc]
            | cons m ms =>
              have hne : ((m :: ms ++ e0) : List MatchRec).isEmpty = false := by
                simp
              simp only [List.isEmpty_cons, Bool.false_eq_true, if_false, hne]
              by_cases h4 : mF ≤ st.filesWithMatches + 1
              · rw [if_pos h4]
                dsimp only []
                obtain ⟨e, he⟩ := searchFreeLoop_extends p utf8D exts rest
                  ⟨st.matchList ++ (m :: ms ++ e0), st.filesSearched + 1, tfF,
                    st.estTokens + sumT (m :: ms ++ e0),
                    st.filesWithMatches + 1, st.truncated⟩
                refine ⟨e0 ++ e, ?_⟩
                rw [he]
                dsimp only []
                simp [List.append_assoc]
              · rw [if_neg h4]
                simp only [if_true]
                obtain ⟨e, he⟩ := searchFreeLoop_extends p utf8D exts rest
                  ⟨st.matchList ++ (m :: ms ++ e0), st.filesSearched + 1, tfF,
                    st.estTokens + sumT (m :: ms ++ e0),
                    st.filesWithMatches + 1, st.truncated⟩
                refine ⟨e0 ++ e, ?_⟩
                rw [he]
                dsimp only []
                simp [List.append_assoc]

/-- With a truncated result that kept at least one match, the rendered
parts carry the explicit textual truncation notice. -/
theorem truncationNotice_mem (pat : String) (st : SState)
    (h1 : st.truncated = true) (h2 : st.matchList ≠ []) :
    truncationNotice ∈ resultParts pat st := by
  unfold resultParts
  have hne : st.matchList.isEmpty = false := by
    cases hml : st.matchList with
    | nil => exact absurd hml h2
    | cons a l => simp
  rw [if_neg (by simp [hne]), h1]
  simp

/-- A search whose match list is empty renders only the no-match report,
whatever the truncation flag says. -/
theorem resultParts_empty (pat : String) (st : SState)
    (h : st.matchList = []) :
    resultParts pat st = [noMatchesMsg pat st.filesSearched] := by
  unfold resultParts
  rw [if_pos (by simp [h])]

/-- C1, counterexample: a search whose very first candidate match already
exceeds the token budget sets the truncation flag but keeps no match, and
its output is the bare no-match report: the explicit textual truncation
notice the claim promises is absent. -/
theorem search_truncation_notice_cex :
    (searchInFiles fooPred utf8None none 15 5 [sampleFooFile]).truncated = true
  ∧ truncationNotice ∉
      resultParts "foo" (searchInFiles fooPred utf8None none 15 5 [sampleFooFile]) := by
  decide

/-- C1, amended: the result draws matches from at most max_files distinct
files, its total estimated size never exceeds max_tokens at all (stronger
than the claimed one-match overshoot), the matches are a prefix of what the
budget-free reference search finds (everything accumulated before a budget
is hit is retained, nothing is reordered or discarded), an untruncated
search returns exactly the reference result (so whenever a budget would
otherwise be exceeded the flag is set), and the textual truncation notice
appears whenever the flag is set and at least one match was kept - a search
truncated before any match was kept returns only the no-match report. -/
theorem search_respects_budgets (p : String → Bool)
    (utf8D : List Nat → Option String) (exts : Option (List String))
    (mF mT : Nat) (files : List FileItem) (pat : String) :
    (((searchInFiles p utf8D exts mF mT files).matchList.map
        (fun m => m.file)).toFinset.card ≤ mF)
  ∧ sumT (searchInFiles p utf8D exts mF mT files).matchList ≤ mT
  ∧ (searchInFiles p utf8D exts mF mT files).matchList <+:
      (searchFreeFiles p utf8D exts files).matchList
  ∧ ((searchInFiles p utf8D exts mF mT files).truncated = false →
      searchFreeFiles p utf8D exts files = searchInFiles p utf8D exts mF mT files)
  ∧ ((searchInFiles p utf8D exts mF mT files).truncated = true →
      (searchInFiles p utf8D exts mF mT files).matchList ≠ [] →
      truncationNotice ∈ resultParts pat (searchInFiles p utf8D exts mF mT files))
  ∧ ((searchInFiles p utf8D exts mF mT files).matchList = [] →
      resultParts pat (searchInFiles p utf8D exts mF mT files) =
        [noMatchesMsg pat (searchInFiles p utf8D exts mF mT files).filesSearched]) := by
  have hinv := searchLoop_inv p utf8D exts mF mT files {} (by simp)
    (Nat.zero_le mF) (by simp [sumT]) (Nat.zero_le mT)
  simp only [searchInFiles, searchFreeFiles]
  refine ⟨le_trans hinv.1 hinv.2.1, ?_, ?_, ?_, ?_, ?_⟩
  · rw [← hinv.2.2.1]
    exact hinv.2.2.2
  · obtain ⟨ext, hext⟩ := searchLoop_prefix p utf8D exts mF mT files {}
    exact ⟨ext, hext.symm⟩
  · exact fun h => searchLoop_agree p utf8D exts mF mT files {} h
  · exact fun h1 h2 => truncationNotice_mem pat _ h1 h2
  · exact fun h => resultParts_empty pat _ h

/-- C1, witness: with a budget of one file and two matching files, the
bounds of the amended statement hold and the kept match forces the textual
truncation notice into the rendered result. -/
theorem search_respects_budgets_witness :
    truncationNotice ∈ resultParts "foo"
      (searchInFiles fooPred utf8None none 1 100000 [sampleFooFile, otherFooFile]) :=
  (search_respects_budgets fooPred utf8None none 1 100000
    [sampleFooFile, otherFooFile] "foo").2.2.2.2.1 (by decide) (by decide)

end GithubGenie
